import Mathlib

/-!
Verification development for the `bw_processing` datapackage library.

We build a shallow embedding of the resource/data engine:

* `DPState` models a `Datapackage` (ordered resource-record list, parallel
  data-object list, `_finalized` flag, `_modified` dirty-set, owned
  filesystem), following `bw_processing/datapackage.py`.
* The mutating operations (`add_persistent_vector`, `add_persistent_array`,
  `add_dynamic_vector`, `add_dynamic_array`, `add_csv_metadata`,
  `add_json_metadata`, `get_resource`, `del_resource`, `del_resource_group`,
  `write_modified`, `finalize_serialization`) are translated line by line.
* `reset_index` / `reindex` follow `bw_processing/indexing.py`.
* `greedy_set_cover` follows `bw_processing/unique_fields.py`.
* `merge_datapackages_with_mask` follows `bw_processing/merging.py`.

Numeric payload values are modelled as `Int` (the claims under study concern
shapes, lengths, dtypes and index rewriting, never floating-point
arithmetic).  Python exceptions are modelled by the `Err` enumeration; an
operation returns the raised error (if any) together with the state of the
datapackage afterwards, since Python exceptions do not roll back earlier
in-place mutation.
-/

namespace BwProcessing

/-- Exception kinds raised by the library (`bw_processing/errors.py`) plus the
built-in Python / filesystem exceptions that the code can raise. -/
inductive Err where
  | closed
  | lengthMismatch
  | nonUnique
  | shapeMismatch
  | wrongDatatype
  | potentialInconsistency
  | indexError
  | keyError
  | valueError
  | assertionError
  | filesystemClosed
  deriving Repr, DecidableEq

instance {ε : Type u} {α : Type v} [DecidableEq ε] [DecidableEq α] :
    DecidableEq (Except ε α) := fun x y =>
  match x, y with
  | Except.error a, Except.error b =>
      if h : a = b then Decidable.isTrue (congrArg Except.error h)
      else Decidable.isFalse (fun hc => h (Except.error.inj hc))
  | Except.ok a, Except.ok b =>
      if h : a = b then Decidable.isTrue (congrArg Except.ok h)
      else Decidable.isFalse (fun hc => h (Except.ok.inj hc))
  | Except.error _, Except.ok _ => Decidable.isFalse (fun hc => Except.noConfusion hc)
  | Except.ok _, Except.error _ => Decidable.isFalse (fun hc => Except.noConfusion hc)

/-- A numpy `flip` array argument: its dtype (boolean or not) and its element
values (for a boolean array the elements are 0/1). -/
structure FlipArray where
  dtypeIsBool : Bool
  elems : List Int
  deriving Repr, DecidableEq

/-- A plain numeric numpy array argument, one- or two-dimensional.  Only the
shape and (for 1-d) the values matter for the properties studied here. -/
inductive NumArray where
  | oneD (xs : List Int)
  | twoD (xss : List (List Int))
  deriving Repr, DecidableEq

/-- A data object held in a datapackage's `data` list: an indices structured
array (row/col pairs), a numeric array, a flip array, a distributions array
(we keep the `uncertainty_type` discriminator of each row), a pandas
dataframe (kept abstract), a live interface, the `UndefinedInterface`
placeholder, or an unresolved `Proxy` wrapping the value it would load. -/
inductive DataObj where
  | indicesArr (xs : List (Int × Int))
  | numArr (a : NumArray)
  | flipArr (a : FlipArray)
  | distArr (uncertaintyTypes : List Int)
  | frame
  | interface
  | undefinedInterface
  | proxy (v : DataObj)
  deriving Repr, DecidableEq

instance : Inhabited DataObj := ⟨DataObj.interface⟩

/-- A resource record (`self.metadata["resources"]` entry).  We keep the keys
the studied code reads: `name`, `group`, `kind`, `profile`, `format`,
`nrows`, whether a `path` key is present, and the `valid_for` declaration of
CSV metadata resources (each entry is a referenced group name and a flag
`true` for the `"row"` column, `false` for `"col"`). -/
structure Resource where
  name : String
  group : Option String
  kind : String
  profile : String
  format : Option String
  nrows : Nat
  hasPath : Bool
  validFor : List (String × Bool)
  deriving Repr, DecidableEq

instance : Inhabited Resource := ⟨⟨"", none, "", "", none, 0, false, []⟩⟩

/-- The filesystem owned by a datapackage: whether it is a `MemoryFS` and
whether it has been closed (sealed). -/
structure Fs where
  isMemory : Bool
  closed : Bool
  deriving Repr, DecidableEq

/-- The state of a `Datapackage`: the parallel `resources`/`data` lists, the
`_finalized` flag, the `_modified` dirty-set (as a list of indices without
duplicates) and the owned filesystem. -/
structure DPState where
  resources : List Resource
  data : List DataObj
  finalized : Bool
  modified : List Nat
  fs : Fs
  deriving Repr, DecidableEq

/-- State of a freshly created datapackage (`Datapackage._create`): empty
resource and data lists, not finalized, empty dirty-set, open filesystem. -/
def initState (isMemory : Bool) : DPState :=
  ⟨[], [], false, [], ⟨isMemory, false⟩⟩

/-- Result of a mutating operation: the raised exception, if any, together
with the state left behind (Python exceptions do not undo earlier in-place
mutation). -/
abbrev OpResult := Option Err × DPState

/-- Sequencing of mutating steps: stop at the first raised exception,
otherwise continue from the new state. -/
def bindOp (r : OpResult) (f : DPState → OpResult) : OpResult :=
  match r with
  | (some e, s) => (some e, s)
  | (none, s) => f s

/-- Python list indexing semantics: a non-negative index must be below the
length, a negative index counts from the end. -/
def pyIdx (n : Nat) (i : Int) : Option Nat :=
  if 0 ≤ i then
    if i < (n : Int) then some i.toNat else none
  else if 0 ≤ (n : Int) + i then some ((n : Int) + i).toNat else none

/-- Read a Python list at a possibly negative index. -/
def pyGet (l : List α) (i : Int) : Option α :=
  (pyIdx l.length i).bind fun j => l.get? j

/-- Write a Python list at a possibly negative index (`l[i] = v`). -/
def pySet (l : List α) (i : Int) (v : α) : Option (List α) :=
  (pyIdx l.length i).map fun j => l.set j v

/-- Delete a Python list element at a possibly negative index (`del l[i]`). -/
def pyDel (l : List α) (i : Int) : Option (List α) :=
  (pyIdx l.length i).map fun j => l.eraseIdx j

/-- Names of all resources in the package. -/
def resourceNames (s : DPState) : List String :=
  s.resources.map Resource.name

/-- Group labels of all resources that carry one. -/
def resourceGroups (s : DPState) : List String :=
  s.resources.filterMap Resource.group

/-- Group labels in order of first appearance (`DatapackageBase.groups`
keys); resources without a group label are ignored. -/
def groupLabels (s : DPState) : List String :=
  (s.resources.filterMap Resource.group).dedup

/-- Check of `Datapackage._check_length_consistency` (datapackage.py:292):
raise `LengthMismatch` when the resource list and the data list have
different lengths. -/
def checkLengthConsistency (s : DPState) : Option Err :=
  if s.resources.length ≠ s.data.length then some Err.lengthMismatch else none

/-- Check of `Datapackage._prepare_modifications` (datapackage.py:384): first
the arity check, then `Closed` when the package is finalized. -/
def prepareModifications (s : DPState) : Option Err :=
  match checkLengthConsistency s with
  | some e => some e
  | none => if s.finalized then some Err.closed else none

/-- Check of `Datapackage._prepare_name` (datapackage.py:390): the new name
must collide neither with an existing resource name nor with an existing
group label.  (The `uuid` fallback for a missing name is not modelled; every
call site studied supplies a concrete name.) -/
def prepareName (s : DPState) (name : String) : Option Err :=
  if name ∈ resourceNames s then some Err.nonUnique
  else if name ∈ resourceGroups s then some Err.nonUnique
  else none

/-- Core of `Datapackage._add_numpy_array_resource` (datapackage.py:616):
persist the array (failing when the filesystem is closed; `MemoryFS` skips
the write), append the data object (wrapped in a proxy when `keep_proxy`),
and append the resource record with `profile` `"data-resource"` and `format`
`"npy"`. -/
def addNumpyArrayResource (s : DPState) (array : DataObj) (name : String)
    (kind : String) (group : Option String) (nrows : Nat)
    (keepProxy : Bool) : OpResult :=
  if ¬ s.fs.isMemory ∧ s.fs.closed then (some Err.filesystemClosed, s)
  else
    let slot := if keepProxy then DataObj.proxy array else array
    let res : Resource := ⟨name, group, kind, "data-resource", some "npy", nrows, true, []⟩
    (none, ⟨s.resources ++ [res], s.data ++ [slot], s.finalized, s.modified, s.fs⟩)

/-- Number of rows of a distributions array whose `uncertainty_type`
discriminator is below 2 (`(distributions_array["uncertainty_type"] < 2).sum()`). -/
def lowUncertaintyCount (uts : List Int) : Nat :=
  uts.countP (fun ut => decide (ut < 2))

/-- The flip-array block shared verbatim by `add_persistent_vector`
(datapackage.py:505), `add_persistent_array` (datapackage.py:580),
`add_dynamic_vector` (datapackage.py:690) and `add_dynamic_array`
(datapackage.py:755): when the flip rows are not all falsy
(`if flip_array.sum():`), require a boolean dtype (`WrongDatatype`) and a
matching shape (`ShapeMismatch`), then persist a `{name}.flip` resource; an
all-falsy flip array is skipped silently, dtype unchecked. -/
def flipBlock (s : DPState) (flipArray : Option FlipArray) (name : String)
    (nrows : Nat) (keepProxy : Bool) : OpResult :=
  match flipArray with
  | none => (none, s)
  | some f =>
      if f.elems.sum ≠ 0 then
        if ¬ f.dtypeIsBool then (some Err.wrongDatatype, s)
        else if f.elems.length ≠ nrows then (some Err.shapeMismatch, s)
        else addNumpyArrayResource s (DataObj.flipArr f)
          (name ++ ".flip") "flip" (some name) nrows keepProxy
      else (none, s)

/-- Is a data slot a distributions array (possibly behind a proxy)? -/
def isDistSlot : DataObj → Bool
  | DataObj.distArr _ => true
  | DataObj.proxy (DataObj.distArr _) => true
  | _ => false

/-- The `data_array` block of `add_persistent_vector` (datapackage.py:463):
when present, the array must be 1-d (`ShapeMismatch` for a higher rank) and
of the same shape as the indices, and is persisted as `{name}.data`. -/
def dataBlock (s : DPState) (dataArray : Option NumArray) (iaLen : Nat)
    (name : String) (nrows : Nat) (keepProxy : Bool) : OpResult :=
  match dataArray with
  | none => (none, s)
  | some (NumArray.twoD xss) =>
      let _ := xss
      (some Err.shapeMismatch, s)
  | some (NumArray.oneD xs) =>
      if xs.length ≠ iaLen then (some Err.shapeMismatch, s)
      else addNumpyArrayResource s (DataObj.numArr (NumArray.oneD xs))
        (name ++ ".data") "data" (some name) nrows keepProxy

/-- The `distributions_array` block of `add_persistent_vector`
(datapackage.py:485): when some row carries an uncertainty discriminator of
2 or more, check the shape and persist `{name}.distributions`; otherwise
skip the member entirely (the shape check included). -/
def distBlock (s : DPState) (distributionsArray : Option (List Int))
    (iaLen : Nat) (name : String) (nrows : Nat) (keepProxy : Bool) : OpResult :=
  match distributionsArray with
  | none => (none, s)
  | some uts =>
      if lowUncertaintyCount uts < uts.length then
        if uts.length ≠ iaLen then (some Err.shapeMismatch, s)
        else addNumpyArrayResource s (DataObj.distArr uts)
          (name ++ ".distributions") "distributions" (some name) nrows keepProxy
      else (none, s)

/-- Embedding of `Datapackage.add_persistent_vector` (datapackage.py:432).
Steps, in source order: `_prepare_modifications`; `_prepare_name`; append the
`{name}.indices` resource; optionally check and append `{name}.data` (must be
1-d of the same length as the indices); optionally append
`{name}.distributions`, but only when some row carries an uncertainty
discriminator of 2 or more (the shape check sits inside that guard);
optionally append `{name}.flip`, but only when the flip rows are not all
falsy (`if flip_array.sum():`), in which case the dtype must be boolean and
the shape must match. -/
def addPersistentVector (s : DPState) (name : String)
    (indicesArray : List (Int × Int)) (dataArray : Option NumArray)
    (flipArray : Option FlipArray) (distributionsArray : Option (List Int))
    (keepProxy : Bool) : OpResult :=
  match prepareModifications s with
  | some e => (some e, s)
  | none =>
  match prepareName s name with
  | some e => (some e, s)
  | none =>
  let nrows := indicesArray.length
  bindOp (addNumpyArrayResource s (DataObj.indicesArr indicesArray)
      (name ++ ".indices") "indices" (some name) nrows keepProxy) fun s1 =>
  bindOp (dataBlock s1 dataArray indicesArray.length name nrows keepProxy) fun s2 =>
  bindOp (distBlock s2 distributionsArray indicesArray.length name nrows keepProxy) fun s3 =>
  flipBlock s3 flipArray name nrows keepProxy

/-- Embedding of `Datapackage.add_persistent_array` (datapackage.py:530):
like the vector case but `data_array` is mandatory and must be exactly 2-d
with the same row count as the indices. -/
def addPersistentArray (s : DPState) (name : String)
    (indicesArray : List (Int × Int)) (dataArray : NumArray)
    (flipArray : Option FlipArray) (keepProxy : Bool) : OpResult :=
  match prepareModifications s with
  | some e => (some e, s)
  | none =>
  match prepareName s name with
  | some e => (some e, s)
  | none =>
  let nrows := indicesArray.length
  bindOp (addNumpyArrayResource s (DataObj.indicesArr indicesArray)
      (name ++ ".indices") "indices" (some name) nrows keepProxy) fun s1 =>
  bindOp (match dataArray with
    | NumArray.oneD xs =>
        -- `len(data_array.shape) != 2` raises ShapeMismatch
        let _ := xs
        (some Err.shapeMismatch, s1)
    | NumArray.twoD xss =>
        if xss.length ≠ indicesArray.length then (some Err.shapeMismatch, s1)
        else addNumpyArrayResource s1 (DataObj.numArr (NumArray.twoD xss))
          (name ++ ".data") "data" (some name) nrows keepProxy) fun s2 =>
  flipBlock s2 flipArray name nrows keepProxy

/-- Embedding of `Datapackage.add_dynamic_vector` (datapackage.py:663) and
`add_dynamic_array` (datapackage.py:724): persist an indices resource and an
optional flip resource, then append the live interface object together with
an `interface`-profile resource record (no path, no format).  The two source
functions differ only in the `category` metadata and in `add_dynamic_array`
pre-clearing an all-falsy flip array, which the shared `if flip_array.sum():`
guard makes behaviourally identical. -/
def addDynamic (s : DPState) (name : String)
    (indicesArray : List (Int × Int)) (flipArray : Option FlipArray)
    (keepProxy : Bool) : OpResult :=
  match prepareModifications s with
  | some e => (some e, s)
  | none =>
  match prepareName s name with
  | some e => (some e, s)
  | none =>
  let nrows := indicesArray.length
  bindOp (addNumpyArrayResource s (DataObj.indicesArr indicesArray)
      (name ++ ".indices") "indices" (some name) nrows keepProxy) fun s1 =>
  bindOp (flipBlock s1 flipArray name nrows keepProxy) fun s2 =>
  let res : Resource := ⟨name ++ ".data", some name, "data", "interface", none, nrows, false, []⟩
  (none, ⟨s2.resources ++ [res], s2.data ++ [DataObj.interface], s2.finalized, s2.modified, s2.fs⟩)

/-- Embedding of `Datapackage.add_csv_metadata` (datapackage.py:789): assert
that every group referenced by `valid_for` exists, reserve the name, run
`_prepare_modifications`, write the CSV file, and append the dataframe with a
`data-resource` record carrying the `valid_for` declaration (no `format`
key, no group label). -/
def addCsvMetadata (s : DPState) (name : String)
    (validFor : List (String × Bool)) : OpResult :=
  if ¬ validFor.all (fun p => p.1 ∈ groupLabels s) then (some Err.assertionError, s)
  else
  match prepareName s name with
  | some e => (some e, s)
  | none =>
  match prepareModifications s with
  | some e => (some e, s)
  | none =>
  if s.fs.closed then (some Err.filesystemClosed, s)
  else
    let res : Resource := ⟨name, none, "", "data-resource", none, 0, true, validFor⟩
    (none, ⟨s.resources ++ [res], s.data ++ [DataObj.frame], s.finalized, s.modified, s.fs⟩)

/-- Embedding of `Datapackage.add_json_metadata` (datapackage.py:847): assert
that the single `valid_for` group exists, run `_prepare_modifications`, write
the JSON file, and append the data with a `data-resource` record.  (The
`check_name` pattern test is not modelled; all names used here satisfy it.) -/
def addJsonMetadata (s : DPState) (name : String) (validFor : String) : OpResult :=
  if validFor ∉ groupLabels s then (some Err.assertionError, s)
  else
  match prepareModifications s with
  | some e => (some e, s)
  | none =>
  if s.fs.closed then (some Err.filesystemClosed, s)
  else
    let res : Resource := ⟨name, none, "", "data-resource", none, 0, true, []⟩
    (none, ⟨s.resources ++ [res], s.data ++ [DataObj.frame], s.finalized, s.modified, s.fs⟩)

/-- A resource selector: an integer index (Python `int`, possibly negative)
or a resource name. -/
inductive Key where
  | idx (i : Int)
  | name (n : String)
  deriving Repr, DecidableEq

/-- Positions of the resources carrying a given name. -/
def idxsOf (l : List Resource) (n : String) : List Nat :=
  (l.enum.filter (fun p => p.2.name = n)).map Prod.fst

/-- Embedding of `DatapackageBase._get_index` (datapackage.py:64).  An
integer selector is rejected with `IndexError` only when it is at least the
number of resources; otherwise it is returned unchanged (negative values
included).  A name selector is resolved to the unique position carrying that
name (`KeyError` when absent, `NonUnique` when ambiguous). -/
def getIndex (s : DPState) (k : Key) : Except Err Int :=
  match k with
  | Key.idx i =>
      if (s.resources.length : Int) ≤ i then Except.error Err.indexError
      else Except.ok i
  | Key.name n =>
      match idxsOf s.resources n with
      | [] => Except.error Err.keyError
      | [j] => Except.ok (j : Int)
      | _ :: _ :: _ => Except.error Err.nonUnique

/-- Resolve a proxy data slot (`Proxy.__call__` re-reads the stream and
returns the wrapped value; any other slot is returned as is). -/
def resolveSlot : DataObj → DataObj
  | DataObj.proxy v => v
  | d => d

/-- In-place materialization performed by `get_resource`: when the slot read
at `i` was a proxy, the realized value is written back at the same index. -/
def materializedData (data : List DataObj) (i : Int) (d : DataObj) : List DataObj :=
  match d with
  | DataObj.proxy v => (pySet data i v).getD data
  | _ => data

/-- Embedding of `DatapackageBase.get_resource` (datapackage.py:142): resolve
the index, read the data slot (Python list indexing, so negative indices
count from the end), replace a proxy slot in place by its realized value, and
return the data object together with its resource record. -/
def getResource (s : DPState) (k : Key) : Except Err (DataObj × Resource) × DPState :=
  match getIndex s k with
  | Except.error e => (Except.error e, s)
  | Except.ok i =>
    match pyGet s.data i with
    | none => (Except.error Err.indexError, s)
    | some d =>
      let s' : DPState := ⟨s.resources, materializedData s.data i d,
        s.finalized, s.modified, s.fs⟩
      match pyGet s'.resources i with
      | none => (Except.error Err.indexError, s')
      | some r => (Except.ok (resolveSlot d, r), s')

/-- Deletion step shared by the branches of `del_resource`: delete the
resource record, then the data slot (`del self.resources[index]`,
`del self.data[index]`; an exception from the second delete leaves the first
applied). -/
def delResourceAt (s : DPState) (i : Int) : OpResult :=
  match pyDel s.resources i with
  | none => (some Err.indexError, s)
  | some resources' =>
    match pyDel s.data i with
    | none => (some Err.indexError, ⟨resources', s.data, s.finalized, s.modified, s.fs⟩)
    | some data' => (none, ⟨resources', data', s.finalized, s.modified, s.fs⟩)

/-- Embedding of `DatapackageBase.del_resource` (datapackage.py:97): refuse
when the dirty-set is non-empty, resolve the index, remove the backing file
(`KeyError`/`ResourceNotFound` are swallowed, but an `IndexError` reading the
record or removing from a closed filesystem is not), then delete the
resource record and the data slot. -/
def delResource (s : DPState) (k : Key) : OpResult :=
  if s.modified ≠ [] then (some Err.potentialInconsistency, s)
  else
  match getIndex s k with
  | Except.error e => (some e, s)
  | Except.ok i =>
    match pyGet s.resources i with
    | none => (some Err.indexError, s)
    | some r =>
      if r.hasPath ∧ s.fs.closed then (some Err.filesystemClosed, s)
      else delResourceAt s i

/-- Positional filtering used by `del_resource_group`: keep the elements
whose position is not in `bad` (the Python comprehension
`[obj for i, obj in enumerate(l) if i not in indices]`). -/
def dropIdxs (l : List α) (bad : List Nat) : List α :=
  (l.enum.filter (fun p => p.1 ∉ bad)).map Prod.snd

/-- Predicate selecting the members of a resource group. -/
def groupHit (name : String) (r : Resource) : Bool :=
  r.group = some name

/-- Positions of the members of a resource group
(`[i for i, resource in enumerate(self.resources) if resource.get("group") == name]`). -/
def hitIdxs (s : DPState) (name : String) : List Nat :=
  (s.resources.enum.filter (fun p => groupHit name p.2)).map Prod.fst

/-- Embedding of `DatapackageBase.del_resource_group` (datapackage.py:115):
refuse when the dirty-set is non-empty, collect the positions whose group
label matches, remove their backing files (failing on a closed filesystem
when some member has a path), and filter both parallel lists by position. -/
def delResourceGroup (s : DPState) (name : String) : OpResult :=
  if s.modified ≠ [] then (some Err.potentialInconsistency, s)
  else if s.fs.closed ∧ (s.resources.filter (groupHit name)).any Resource.hasPath then
    (some Err.filesystemClosed, s)
  else
    (none, ⟨dropIdxs s.resources (hitIdxs s name), dropIdxs s.data (hitIdxs s name),
      s.finalized, s.modified, s.fs⟩)

/-- Embedding of `Datapackage.write_modified` (datapackage.py:604): write
every resource whose index sits in the dirty-set back to the filesystem (an
interface resource has no `path` key, giving `KeyError`; a closed filesystem
refuses the write), then clear the dirty-set. -/
def writeModifiedStep (s : DPState) (acc : Option Err) (index : Nat) : Option Err :=
  match acc with
  | some e => some e
  | none =>
    match s.data.get? index with
    | none => some Err.indexError
    | some _ =>
      match s.resources.get? index with
      | none => some Err.indexError
      | some r =>
        if ¬ r.hasPath then some Err.keyError
        else if s.fs.closed then some Err.filesystemClosed
        else none

def writeModified (s : DPState) : OpResult :=
  match s.modified.foldl (writeModifiedStep s) none with
  | some e => (some e, s)
  | none => (none, ⟨s.resources, s.data, s.finalized, [], s.fs⟩)

/-- Embedding of `DatapackageBase._dehydrate_interfaces` (datapackage.py:219):
replace the data slot of every `interface`-profile resource by the
`UndefinedInterface` placeholder, in ascending position order. -/
def dehydrateStep (acc : OpResult) (index : Nat) : OpResult :=
  match acc with
  | (some e, st) => (some e, st)
  | (none, st) =>
    if index < st.data.length then
      (none, ⟨st.resources, st.data.set index DataObj.undefinedInterface,
        st.finalized, st.modified, st.fs⟩)
    else (some Err.indexError, st)

def dehydrateInterfaces (s : DPState) : OpResult :=
  ((s.resources.enum.filter (fun p => p.2.profile = "interface")).map Prod.fst).foldl
    dehydrateStep (none, s)

/-- Embedding of `Datapackage.finalize_serialization` (datapackage.py:367):
raise `Closed` when `_finalized` is set, refuse in-memory filesystems,
dehydrate interfaces, check the arity invariant, write `datapackage.json`
(failing when the filesystem is already closed) and close the filesystem.
Note that the source never sets `_finalized` to `True`, and this embedding
faithfully reproduces that: the resulting state keeps `finalized` unchanged. -/
def finalizeSerialization (s : DPState) : OpResult :=
  if s.finalized then (some Err.closed, s)
  else if s.fs.isMemory then (some Err.valueError, s)
  else
    bindOp (dehydrateInterfaces s) fun s1 =>
    match checkLengthConsistency s1 with
    | some e => (some e, s1)
    | none =>
      if s1.fs.closed then (some Err.filesystemClosed, s1)
      else (none, ⟨s1.resources, s1.data, s1.finalized, s1.modified, ⟨s1.fs.isMemory, true⟩⟩)

/-- The arity invariant of a datapackage: the resource-record list and the
data-object list have the same length. -/
def lenInv (s : DPState) : Prop := s.resources.length = s.data.length

instance (s : DPState) : Decidable (lenInv s) := by
  unfold lenInv; infer_instance

/-- One step of the datapackage lifecycle: any operation applied with any
arguments, relating a state to the state left behind (whether or not the
operation raised). -/
inductive Step : DPState → DPState → Prop where
  | addPersistentVector (s) (name indicesArray dataArray flipArray distributionsArray keepProxy) :
      Step s (addPersistentVector s name indicesArray dataArray flipArray distributionsArray keepProxy).2
  | addPersistentArray (s) (name indicesArray dataArray flipArray keepProxy) :
      Step s (addPersistentArray s name indicesArray dataArray flipArray keepProxy).2
  | addDynamic (s) (name indicesArray flipArray keepProxy) :
      Step s (addDynamic s name indicesArray flipArray keepProxy).2
  | addCsvMetadata (s) (name validFor) :
      Step s (addCsvMetadata s name validFor).2
  | addJsonMetadata (s) (name validFor) :
      Step s (addJsonMetadata s name validFor).2
  | getResource (s) (k) : Step s (getResource s k).2
  | delResource (s) (k) : Step s (delResource s k).2
  | delResourceGroup (s) (name) : Step s (delResourceGroup s name).2
  | writeModified (s) : Step s (writeModified s).2
  | finalizeSerialization (s) : Step s (finalizeSerialization s).2

/-- States reachable from a freshly created datapackage by any sequence of
operations. -/
inductive Reachable : DPState → Prop where
  | init (isMemory : Bool) : Reachable (initState isMemory)
  | step {s s' : DPState} : Reachable s → Step s s' → Reachable s'

/-! ### Reindexing (`bw_processing/indexing.py`) -/

/-- Read one column of a structured indices array: the `"row"` components
when the label is `true`, the `"col"` components otherwise. -/
def colOf (xs : List (Int × Int)) (lab : Bool) : List Int :=
  if lab then xs.map Prod.fst else xs.map Prod.snd

/-- Write one column of a structured indices array in place
(`array[:] = new`); the other column is untouched. -/
def setColOf (xs : List (Int × Int)) (lab : Bool) (new : List Int) : List (Int × Int) :=
  if lab then new.zip (xs.map Prod.snd) else (xs.map Prod.fst).zip new

/-- A handle to one referenced indices-array column: the position of the
indices resource in the package and the row/col label.  A handle plays the
role of the numpy column view captured by `_get_csv_data`: two handles alias
the same memory exactly when they are equal. -/
abbrev ColHandle := Nat × Bool

/-- Read the column a handle refers to from the current package state. -/
def readCol (s : DPState) (h : ColHandle) : Option (List Int) :=
  match s.data.get? h.1 with
  | some (DataObj.indicesArr xs) => some (colOf xs h.2)
  | _ => none

/-- Write the column a handle refers to back into the package state. -/
def writeCol (s : DPState) (h : ColHandle) (new : List Int) : DPState :=
  match s.data.get? h.1 with
  | some (DataObj.indicesArr xs) =>
      ⟨s.resources, s.data.set h.1 (DataObj.indicesArr (setColOf xs h.2 new)),
        s.finalized, s.modified, s.fs⟩
  | _ => s

/-- Resolve the `valid_for` entries of a CSV metadata resource to column
handles, calling `get_resource(key + ".indices")` for each entry exactly as
`_get_csv_data` (indexing.py:40) does.  The handle records the position that
`dp._get_index(key + ".indices")` (indexing.py:44) returns.  A referenced
resource whose data slot is not an indices array fails the numpy column
access; this is modelled as `KeyError`. -/
def collectValidFor : DPState → List (String × Bool) → Except Err (DPState × List ColHandle)
  | s, [] => Except.ok (s, [])
  | s, (key, lab) :: rest =>
    match getResource s (Key.name (key ++ ".indices")) with
    | (Except.error e, _) => Except.error e
    | (Except.ok (d, _), s') =>
      match d with
      | DataObj.indicesArr _ =>
          match getIndex s' (Key.name (key ++ ".indices")) with
          | Except.error e => Except.error e
          | Except.ok i =>
              (collectValidFor s' rest).map (fun p => (p.1, (i.toNat, lab) :: p.2))
      | _ => Except.error Err.keyError

/-- Embedding of `_get_csv_data` (indexing.py:10): fetch the metadata
resource by name (`KeyError`/`NonUnique` from `_get_index`), require its data
slot to be a dataframe (`ValueError` otherwise), and resolve every
`valid_for` entry to a column handle.  One handle is produced per entry; no
deduplication of any kind is performed. -/
def getCsvData (s : DPState) (metadataName : String) :
    Except Err (DPState × Nat × List ColHandle) :=
  match getResource s (Key.name metadataName) with
  | (Except.error e, _) => Except.error e
  | (Except.ok (d, r), s1) =>
    match d with
    | DataObj.frame =>
        match getIndex s1 (Key.name metadataName) with
        | Except.error e => Except.error e
        | Except.ok mi =>
            (collectValidFor s1 r.validFor).map (fun p => (p.1, mi.toNat, p.2))
    | _ => Except.error Err.valueError

/-- Sorted list of the distinct values of a list, ascending (`np.unique`). -/
def npUnique (l : List Int) : List Int :=
  List.insertionSort (fun a b => a ≤ b) l.dedup

/-- The dense renumbering map built by `reset_index` (indexing.py:66): each
distinct original value is sent to its position in the ascending list of
distinct values (the dictionary `{k: v for k, v in zip(unique, arange)}`); a
value outside that list has no image (`KeyError`). -/
def mapperOf (uniq : List Int) (v : Int) : Option Nat :=
  match uniq with
  | [] => none
  | a :: t => if a = v then some 0 else (mapperOf t v).map (fun j => j + 1)

/-- Position of a value in a list (total version of `mapperOf`, meaningful
for members). -/
def rankIn (uniq : List Int) (v : Int) : Nat :=
  match uniq with
  | [] => 0
  | a :: t => if a = v then 0 else rankIn t v + 1

/-- Elementwise mapping that fails at the first element without an image
(the `new[x] = mapper[y]` loop with its possible `KeyError`). -/
def mapOpt (f : α → Option β) : List α → Option (List β)
  | [] => some []
  | a :: t =>
    match f a with
    | none => none
    | some b => (mapOpt f t).map (fun bs => b :: bs)

/-- The rewrite loop of `reset_index` (indexing.py:68): process the column
handles in order; for each, read the current column, pass every element
through the mapper (`KeyError` when a value has no image, in which case the
columns already rewritten keep their new values), and write the result back
in place. -/
def rewriteCols (mapper : Int → Option Nat) : DPState → List ColHandle → OpResult
  | s, [] => (none, s)
  | s, h :: rest =>
    match readCol s h with
    | none => (some Err.keyError, s)
    | some col =>
      match mapOpt mapper col with
      | none => (some Err.keyError, s)
      | some newCol => rewriteCols mapper (writeCol s h (newCol.map Int.ofNat)) rest

/-- Set-union update of the `_modified` dirty-set with a list of positions. -/
def updateModified (modified : List Nat) (idxs : List Nat) : List Nat :=
  (modified ++ idxs).dedup

/-- Embedding of `reset_index` (indexing.py:48): resolve the metadata
resource and its referenced columns, run `_prepare_modifications`, compute
the ascending distinct values across all referenced columns
(`np.unique(np.hstack(arrays))`), rewrite each referenced column in place
through the dense mapper, and add every referenced indices-resource position
to the dirty-set. -/
def resetIndex (s0 : DPState) (metadataName : String) : OpResult :=
  match getCsvData s0 metadataName with
  | Except.error e => (some e, s0)
  | Except.ok (s, _mi, handles) =>
    match prepareModifications s with
    | some e => (some e, s)
    | none =>
      let uniq := npUnique ((handles.filterMap (readCol s)).flatten)
      bindOp (rewriteCols (mapperOf uniq) s handles) fun s' =>
        (none, ⟨s'.resources, s'.data, s'.finalized,
          updateModified s'.modified (handles.map Prod.fst), s'.fs⟩)

/-! ### `reindex` (indexing.py:79)

The mapper-building core of `reindex` is modelled over its plain inputs: the
destination records (`data_iterable`), the metadata table (its column names
and its rows, each row an association list of column name to value), the
optional field list and the two id-field names.  The referenced indices
columns are passed as plain integer lists; the state bookkeeping
(`_get_csv_data`, `_modified.update`) is shared with `reset_index` above and
is not what the reindex claims are about. -/

/-- A record: field name to integer value. -/
abbrev RecordT := List (String × Int)

/-- Field access `row.get(field)`: `none` when the field is missing. -/
def rowGet (row : RecordT) (field : String) : Option Int :=
  (row.find? (fun p => p.1 = field)).map Prod.snd

/-- Composite key of a destination record:
`tuple([row.get(field) for field in fields])` (indexing.py:132); a missing
field contributes Python's `None`. -/
def destKey (fields : List String) (row : RecordT) : List (Option Int) :=
  fields.map (rowGet row)

/-- Composite key of a metadata-table row:
`tuple([df[field][i] for field in fields])` (indexing.py:141); a missing
column raises `KeyError`. -/
def dfKey (fields : List String) (row : RecordT) : Except Err (List (Option Int)) :=
  fields.mapM (fun f =>
    match rowGet row f with
    | some v => Except.ok (some v)
    | none => Except.error Err.keyError)

/-- Number of destination records carrying a given composite key. -/
def keyCount (destination : List RecordT) (fields : List String)
    (k : List (Option Int)) : Nat :=
  destination.countP (fun r => destKey fields r = k)

/-- Replace the value bound to a key in an association list. -/
def assocSet : List (List (Option Int) × Option Int) → List (Option Int) →
    Option Int → List (List (Option Int) × Option Int)
  | [], _, _ => []
  | (k0, v0) :: t, k, v =>
      (if k0 = k then (k0, v) else (k0, v0)) :: assocSet t k v

/-- The destination-mapper loop of `reindex` (indexing.py:131): scan the
destination records in order; a record whose key is already present
overwrites the binding with the `NonUnique` sentinel (modelled as `none`),
otherwise the key is bound to the record's id (`row[id_field_destination]`,
`KeyError` when missing). -/
def buildDestMapper (fields : List String) (idFieldDest : String) :
    List (List (Option Int) × Option Int) → List RecordT →
      Except Err (List (List (Option Int) × Option Int))
  | acc, [] => Except.ok acc
  | acc, row :: rest =>
    match rowGet row idFieldDest with
    | none => Except.error Err.keyError
    | some index =>
      let key := destKey fields row
      let acc' := if (acc.lookup key).isSome then assocSet acc key none
        else acc ++ [(key, some index)]
      buildDestMapper fields idFieldDest acc' rest

/-- The metadata-row loop of `reindex` (indexing.py:140): for each row of the
metadata table in order, look its composite key up in the destination
mapper — `KeyError` when absent, `NonUnique` when the binding is the
sentinel — and bind the row's package id to the destination id. -/
def buildMapper (destMapper : List (List (Option Int) × Option Int))
    (fields : List String) (idFieldDp : String) :
    List (Int × Int) → List RecordT → Except Err (List (Int × Int))
  | acc, [] => Except.ok acc
  | acc, row :: rest =>
    match dfKey fields row with
    | Except.error e => Except.error e
    | Except.ok key =>
      match rowGet row idFieldDp with
      | none => Except.error Err.keyError
      | some index =>
        match destMapper.lookup key with
        | none => Except.error Err.keyError
        | some none => Except.error Err.nonUnique
        | some (some destId) =>
            let acc' := if (acc.lookup index).isSome then
                (acc.map (fun p => if p.1 = index then (p.1, destId) else p))
              else acc ++ [(index, destId)]
            buildMapper destMapper fields idFieldDp acc' rest

/-- Embedding of the decisive part of `reindex` (indexing.py:118): check that
the package id column exists, default `fields` to the sorted non-id columns,
build the destination mapper, scan the metadata rows building the id mapper,
then rewrite every referenced indices column through it (`KeyError` when an
index has no image) and map the metadata id column (pandas `.map`, which
leaves a missing image as a hole rather than raising). -/
def reindexCore (destination : List RecordT) (dfCols : List String)
    (dfRows : List RecordT) (fields? : Option (List String))
    (idFieldDp idFieldDest : String) (arrays : List (List Int)) :
    Except Err (List (List Int) × List (Option Int)) :=
  if idFieldDp ∉ dfCols then Except.error Err.keyError
  else
    let fields := match fields? with
      | some fs => fs
      | none => List.insertionSort (fun a b => a ≤ b) (dfCols.filter (fun c => c ≠ idFieldDp))
    match buildDestMapper fields idFieldDest [] destination with
    | Except.error e => Except.error e
    | Except.ok destMapper =>
      match buildMapper destMapper fields idFieldDp [] dfRows with
      | Except.error e => Except.error e
      | Except.ok mapper =>
        match arrays.mapM (fun col => col.mapM (fun v => (mapper.lookup v))) with
        | none => Except.error Err.keyError
        | some arrays' =>
            Except.ok (arrays',
              (dfRows.filterMap (fun row => rowGet row idFieldDp)).map
                (fun v => mapper.lookup v))

/-! ### Greedy unique-attribute selection (`bw_processing/unique_fields.py`) -/

/-- Number of distinct values of a field across the records
(`len({obj[field] for obj in data})`).  Records are assumed to share their
fields (the documented precondition); a missing field is modelled as a
distinct `none` value. -/
def distinctCount (data : List RecordT) (field : String) : Nat :=
  ((data.map (fun r => rowGet r field)).dedup).length

/-- Lexicographic comparison of character lists by code point, the order
Python's `sorted` uses on strings. -/
def strLt : List Char → List Char → Bool
  | [], [] => false
  | [], _ :: _ => true
  | _ :: _, [] => false
  | a :: as, b :: bs =>
    if a.toNat < b.toNat then true
    else if b.toNat < a.toNat then false
    else strLt as bs

/-- Python's `<` on strings: code-point lexicographic order. -/
def strLtB (f g : String) : Bool :=
  strLt f.data g.data

/-- Strict comparison of the sort keys `(len(distinct values), field)` used
by `values_for_fields` (unique_fields.py:40): first by distinct-value count,
ties by field name, so the maximum is the field with the greatest count and,
among those, the lexicographically later name. -/
def keyLtB (data : List RecordT) (f g : String) : Bool :=
  (decide (distinctCount data f < distinctCount data g)) ||
    ((distinctCount data f == distinctCount data g) && strLtB f g)

/-- The field selected by `values_for_fields(...)[0][1]`: the maximum of the
remaining fields under the `(count, name)` order. -/
def nextField (data : List RecordT) : List String → String
  | [] => ""
  | f :: rest => rest.foldl (fun best g => if keyLtB data best g then g else best) f

/-- Number of distinct chosen-field tuples across the records
(`coverage`, unique_fields.py:45). -/
def coverage (data : List RecordT) (chosen : List String) : Nat :=
  ((data.map (fun r => chosen.map (rowGet r))).dedup).length

/-- The `while` loop of `greedy_set_cover` (unique_fields.py:48), with an
explicit fuel argument for termination.  Starting the loop with fuel equal to
the number of remaining fields makes the fuel-exhaustion branch dead code
(each iteration removes the selected field, which is always a member), as
proved below. -/
def greedyLoop (data : List RecordT) (raiseError : Bool) :
    Nat → List String → List String → Except Err (List String)
  | fuel, fields, chosen =>
    if coverage data chosen = data.length then Except.ok chosen
    else
      match fields with
      | [] => if raiseError then Except.error Err.nonUnique else Except.ok chosen
      | f :: rest =>
        match fuel with
        | 0 => Except.ok chosen
        | fuel' + 1 =>
            greedyLoop data raiseError fuel'
              ((f :: rest).erase (nextField data (f :: rest)))
              (chosen ++ [nextField data (f :: rest)])

/-- Field collection of `greedy_set_cover` (unique_fields.py:36): the fields
appearing in the records, minus the exclusions, `id` always excluded. -/
def collectFields (data : List RecordT) (exclude : List String) : List String :=
  ((data.map (fun r => r.map Prod.fst)).flatten).dedup.filter
    (fun f => f ≠ "id" ∧ f ∉ exclude)

/-- Embedding of `greedy_set_cover` (unique_fields.py:5): collect the fields
appearing in the records minus the exclusions (`id` always excluded), then
repeatedly move the field with the greatest distinct-value count (ties to the
lexicographically later name) from the remaining set to the chosen list until
the chosen tuples distinguish every record; raise `NonUnique` when the fields
run out first, unless `raise_error` is false, in which case the (by then
complete) chosen list is returned.  The chosen fields are returned in
selection order; Python returns them as a set. -/
def greedy_set_cover (data : List RecordT) (exclude : List String)
    (raiseError : Bool) : Except Err (List String) :=
  greedyLoop data raiseError (collectFields data exclude).length
    (collectFields data exclude) []

/-! ### Mask-based merging (`bw_processing/merging.py`) -/

/-- Python `len()` of a data object, when the object is sized. -/
def dataLen : DataObj → Option Nat
  | DataObj.indicesArr xs => some xs.length
  | DataObj.numArr (NumArray.oneD xs) => some xs.length
  | DataObj.numArr (NumArray.twoD xss) => some xss.length
  | DataObj.flipArr f => some f.elems.length
  | DataObj.distArr uts => some uts.length
  | _ => none

/-- Numpy boolean-mask selection `obj[mask]`: the mask must have exactly the
array's length (`IndexError` otherwise); the rows at true positions survive
in order. -/
def maskSelect (xs : List α) (mask : List Bool) : Except Err (List α) :=
  if xs.length ≠ mask.length then Except.error Err.indexError
  else Except.ok ((xs.zip mask).filterMap (fun p => if p.2 then some p.1 else none))

/-- Embedding of `mask_resource` (merging.py:15): numpy arrays and dataframes
are masked with `obj[mask]`; anything else in a resource group is rejected
(the `Iterable` fallback never applies to the array objects a group can
hold). -/
def maskResource (d : DataObj) (mask : List Bool) : Except Err DataObj :=
  match d with
  | DataObj.indicesArr xs => (maskSelect xs mask).map DataObj.indicesArr
  | DataObj.numArr (NumArray.oneD xs) =>
      (maskSelect xs mask).map (fun ys => DataObj.numArr (NumArray.oneD ys))
  | DataObj.numArr (NumArray.twoD xss) =>
      (maskSelect xss mask).map (fun ys => DataObj.numArr (NumArray.twoD ys))
  | DataObj.flipArr f =>
      (maskSelect f.elems mask).map (fun ys => DataObj.flipArr ⟨f.dtypeIsBool, ys⟩)
  | DataObj.distArr uts => (maskSelect uts mask).map DataObj.distArr
  | DataObj.frame => Except.ok DataObj.frame
  | _ => Except.error Err.valueError

/-- Embedding of `update_nrows` (merging.py:24): a resource whose `format` is
`"npy"` gets its `nrows` replaced by the masked data's length; a resource
without a `format` key fails the dictionary access. -/
def updateNrows (r : Resource) (d : DataObj) : Except Err Resource :=
  match r.format with
  | none => Except.error Err.keyError
  | some fmt =>
      if fmt = "npy" then
        match dataLen d with
        | none => Except.error Err.valueError
        | some n => Except.ok ⟨r.name, r.group, r.kind, r.profile, r.format, n, r.hasPath, r.validFor⟩
      else Except.ok r

/-- Embedding of `add_resource_suffix` (merging.py:30): with an empty suffix
the record is returned unchanged; otherwise the trailing dotted component of
the name must be one of the four member kinds (`ValueError` otherwise) and
the suffix is inserted into the name and the group label before it. -/
def addResourceSuffix (suffix : String) (r : Resource) : Except Err Resource :=
  if suffix = "" then Except.ok r
  else
    match (r.name.splitOn ".").getLast? with
    | none => Except.error Err.valueError
    | some last =>
      if last = "indices" ∨ last = "data" ∨ last = "distributions" ∨ last = "flip" then
        let rest := String.mk (r.name.data.take (r.name.length - last.length - 1))
        Except.ok ⟨(r.name.replace rest (rest ++ suffix)), (r.group.map
            (fun g => g.replace rest (rest ++ suffix))), r.kind, r.profile,
          r.format, r.nrows, r.hasPath, r.validFor⟩
      else Except.error Err.valueError

/-- Positional selection used by `filter_by_attribute`: keep the elements
whose position carries a matching resource. -/
def keepIdxs (l : List α) (good : List Nat) : List α :=
  (l.enum.filter (fun p => p.1 ∈ good)).map Prod.snd

/-- Embedding of `DatapackageBase.filter_by_attribute` (datapackage.py:167)
specialized to the `group` key, as used by `groups`: a fresh filtered view
sharing the selected data objects positionally. -/
def filterByGroup (s : DPState) (label : String) : DPState :=
  ⟨keepIdxs s.resources (hitIdxs s label), keepIdxs s.data (hitIdxs s label),
    false, [], s.fs⟩

/-- Embedding of `merge_datapackages_with_mask` (merging.py:77).  The length
check reproduces merging.py:131 verbatim: it compares
`len(first_dp.data[0])` with itself and with `len(mask_array)`; the second
package's row count never enters the comparison.  Afterwards the two groups'
records are concatenated (suffixed with `_true`/`_false` when the labels
coincide), the first group's data is masked with `mask`, the second with
`~mask`, `nrows` is refreshed from the masked data, and the result is
finalized with a `try/except ValueError` that tolerates in-memory backends. -/
def mergeDatapackagesWithMask (first : DPState) (firstLabel : String)
    (second : DPState) (secondLabel : String) (mask : List Bool)
    (outputIsMemory : Bool) : Except Err DPState :=
  let addSuffix := firstLabel = secondLabel
  if firstLabel ∉ groupLabels first then Except.error Err.valueError
  else if secondLabel ∉ groupLabels second then Except.error Err.valueError
  else
    let fdp := filterByGroup first firstLabel
    let sdp := filterByGroup second secondLabel
    match fdp.data.head? with
    | none => Except.error Err.indexError
    | some d0 =>
      match dataLen d0 with
      | none => Except.error Err.valueError
      | some l0 =>
        if ¬ (l0 = l0 ∧ l0 = mask.length) then Except.error Err.lengthMismatch
        else if fdp.resources.any (fun r => r.profile = "interface") then
          Except.error Err.valueError
        else if sdp.resources.any (fun r => r.profile = "interface") then
          Except.error Err.valueError
        else
          match fdp.resources.mapM (addResourceSuffix (if addSuffix then "_true" else "")) with
          | Except.error e => Except.error e
          | Except.ok res1 =>
          match sdp.resources.mapM (addResourceSuffix (if addSuffix then "_false" else "")) with
          | Except.error e => Except.error e
          | Except.ok res2 =>
          match fdp.data.mapM (fun d => maskResource d mask) with
          | Except.error e => Except.error e
          | Except.ok data1 =>
          match sdp.data.mapM (fun d => maskResource d (mask.map (fun b => !b))) with
          | Except.error e => Except.error e
          | Except.ok data2 =>
          match ((res1 ++ res2).zip (data1 ++ data2)).mapM
              (fun p => updateNrows p.1 p.2) with
          | Except.error e => Except.error e
          | Except.ok resources' =>
              Except.ok ⟨resources', data1 ++ data2, false, [],
                ⟨outputIsMemory, ¬ outputIsMemory⟩⟩

/-! ### Concrete example packages used by counterexamples and witnesses -/

/-- A datapackage holding one resource group `g1` of five rows. -/
def mergeFirstEx : DPState :=
  ⟨[⟨"g1.indices", some "g1", "indices", "data-resource", some "npy", 5, true, []⟩],
    [DataObj.indicesArr [(0, 0), (1, 1), (2, 2), (3, 3), (4, 4)]], false, [], ⟨true, false⟩⟩

/-- A datapackage holding one resource group `g2` of ten rows. -/
def mergeSecondEx : DPState :=
  ⟨[⟨"g2.indices", some "g2", "indices", "data-resource", some "npy", 10, true, []⟩],
    [DataObj.indicesArr ((List.range 10).map (fun i => ((i : Int), (i : Int))))],
    false, [], ⟨true, false⟩⟩

/-- A five-element boolean mask. -/
def maskEx : List Bool := [true, false, true, false, true]

/-- The spec's `reset_index` example package: indices
`[(11,14),(11,15),(13,15)]` under group `x`, with a CSV metadata resource
whose `valid_for` names the `row` column of `x` once. -/
def resetIndexEx : DPState :=
  ⟨[⟨"x.indices", some "x", "indices", "data-resource", some "npy", 3, true, []⟩,
      ⟨"meta", none, "", "data-resource", none, 0, true, [("x", true)]⟩],
    [DataObj.indicesArr [(11, 14), (11, 15), (13, 15)], DataObj.frame],
    false, [], ⟨true, false⟩⟩

/-- The same package as `resetIndexEx` but with `valid_for` referencing the
`row` column of `x` twice. -/
def resetIndexDoubleEx : DPState :=
  ⟨[⟨"x.indices", some "x", "indices", "data-resource", some "npy", 3, true, []⟩,
      ⟨"meta", none, "", "data-resource", none, 0, true, [("x", true), ("x", true)]⟩],
    [DataObj.indicesArr [(11, 14), (11, 15), (13, 15)], DataObj.frame],
    false, [], ⟨true, false⟩⟩

/-- A structurally inconsistent package: two resource records but a single
data object.  Not reachable through the public operations; used to probe
which operations check the arity invariant. -/
def arityBadEx : DPState :=
  ⟨[⟨"a.indices", some "a", "indices", "data-resource", some "npy", 1, false, []⟩,
      ⟨"b.indices", some "b", "indices", "data-resource", some "npy", 1, false, []⟩],
    [DataObj.indicesArr [(0, 0)]], false, [], ⟨true, false⟩⟩

/-- Destination records for the `reindex` counterexample: the records with
ids 1 and 2 share the composite key on field `a`. -/
def reindexDestEx : List RecordT :=
  [[("a", 1), ("id", 1)], [("a", 1), ("id", 2)], [("a", 2), ("id", 3)]]

/-- Metadata rows for the `reindex` counterexample: the single row's key
`(a=2)` matches only the destination record with id 3. -/
def reindexRowsEx : List RecordT :=
  [[("a", 2), ("id", 7)]]

/-- The spec's greedy-uniqueness example records. -/
def greedyEx : List RecordT :=
  [[("a", 1), ("b", 2), ("c", 3)], [("a", 2), ("b", 2), ("c", 3)],
    [("a", 1), ("b", 2), ("c", 4)]]

/-- A two-resource package used to exercise negative indexing. -/
def negIndexEx : DPState :=
  ⟨[⟨"x.indices", some "x", "indices", "data-resource", some "npy", 2, true, []⟩,
      ⟨"x.data", some "x", "data", "data-resource", some "npy", 2, true, []⟩],
    [DataObj.indicesArr [(1, 4), (2, 5)], DataObj.numArr (NumArray.oneD [7, 8])],
    false, [], ⟨true, false⟩⟩

lemma lenInv_bindOp {r : OpResult} {f : DPState → OpResult} (hr : lenInv r.2)
    (hf : ∀ t, lenInv t → lenInv (f t).2) : lenInv (bindOp r f).2 := by
  obtain ⟨e, t⟩ := r
  cases e with
  | none => exact hf t hr
  | some e => exact hr

lemma lenInv_addNumpyArrayResource {s : DPState} (h : lenInv s)
    (array name kind group nrows keepProxy) :
    lenInv (addNumpyArrayResource s array name kind group nrows keepProxy).2 := by
  unfold addNumpyArrayResource
  split
  · exact h
  · simp only [lenInv, List.length_append, List.length_cons, List.length_nil]
    simpa [lenInv] using h

lemma lenInv_flipBlock {s : DPState} (h : lenInv s)
    (flipArray : Option FlipArray) (name : String) (nrows : Nat) (keepProxy : Bool) :
    lenInv (flipBlock s flipArray name nrows keepProxy).2 := by
  match flipArray with
  | none => exact h
  | some f =>
    simp only [flipBlock]
    split
    · split
      · exact h
      · split
        · exact h
        · exact lenInv_addNumpyArrayResource h _ _ _ _ _ _
    · exact h

lemma lenInv_dataBlock {s : DPState} (h : lenInv s)
    (dataArray : Option NumArray) (iaLen : Nat) (name : String) (nrows : Nat)
    (keepProxy : Bool) :
    lenInv (dataBlock s dataArray iaLen name nrows keepProxy).2 := by
  match dataArray with
  | none => exact h
  | some (NumArray.twoD xss) => exact h
  | some (NumArray.oneD xs) =>
    simp only [dataBlock]
    split
    · exact h
    · exact lenInv_addNumpyArrayResource h _ _ _ _ _ _

lemma lenInv_distBlock {s : DPState} (h : lenInv s)
    (distributionsArray : Option (List Int)) (iaLen : Nat) (name : String)
    (nrows : Nat) (keepProxy : Bool) :
    lenInv (distBlock s distributionsArray iaLen name nrows keepProxy).2 := by
  match distributionsArray with
  | none => exact h
  | some uts =>
    simp only [distBlock]
    split
    · split
      · exact h
      · exact lenInv_addNumpyArrayResource h _ _ _ _ _ _
    · exact h

lemma lenInv_addPersistentVector {s : DPState} (h : lenInv s)
    (name indicesArray dataArray flipArray distributionsArray keepProxy) :
    lenInv (addPersistentVector s name indicesArray dataArray flipArray
      distributionsArray keepProxy).2 := by
  unfold addPersistentVector
  split
  · exact h
  · split
    · exact h
    · refine lenInv_bindOp (lenInv_addNumpyArrayResource h _ _ _ _ _ _) fun s1 h1 => ?_
      refine lenInv_bindOp (lenInv_dataBlock h1 _ _ _ _ _) fun s2 h2 => ?_
      refine lenInv_bindOp (lenInv_distBlock h2 _ _ _ _ _) fun s3 h3 => ?_
      exact lenInv_flipBlock h3 flipArray name indicesArray.length keepProxy

lemma lenInv_addPersistentArray {s : DPState} (h : lenInv s)
    (name indicesArray dataArray flipArray keepProxy) :
    lenInv (addPersistentArray s name indicesArray dataArray flipArray keepProxy).2 := by
  unfold addPersistentArray
  split
  · exact h
  · split
    · exact h
    · refine lenInv_bindOp (lenInv_addNumpyArrayResource h _ _ _ _ _ _) fun s1 h1 => ?_
      refine lenInv_bindOp ?_ fun s2 h2 => ?_
      · match dataArray with
        | NumArray.oneD xs => exact h1
        | NumArray.twoD xss =>
          simp only
          split
          · exact h1
          · exact lenInv_addNumpyArrayResource h1 _ _ _ _ _ _
      · match flipArray with
        | none => exact h2
        | some f => exact lenInv_flipBlock h2 f name indicesArray.length keepProxy

lemma lenInv_addDynamic {s : DPState} (h : lenInv s)
    (name indicesArray flipArray keepProxy) :
    lenInv (addDynamic s name indicesArray flipArray keepProxy).2 := by
  unfold addDynamic
  split
  · exact h
  · split
    · exact h
    · refine lenInv_bindOp (lenInv_addNumpyArrayResource h _ _ _ _ _ _) fun s1 h1 => ?_
      refine lenInv_bindOp ?_ fun s2 h2 => ?_
      · match flipArray with
        | none => exact h1
        | some f => exact lenInv_flipBlock h1 f name indicesArray.length keepProxy
      · simp only [lenInv, List.length_append, List.length_cons, List.length_nil]
        simpa [lenInv] using h2

lemma lenInv_addCsvMetadata {s : DPState} (h : lenInv s) (name validFor) :
    lenInv (addCsvMetadata s name validFor).2 := by
  unfold addCsvMetadata
  split
  · exact h
  · split
    · exact h
    · split
      · exact h
      · split
        · exact h
        · simp only [lenInv, List.length_append, List.length_cons, List.length_nil]
          simpa [lenInv] using h

lemma lenInv_addJsonMetadata {s : DPState} (h : lenInv s) (name validFor) :
    lenInv (addJsonMetadata s name validFor).2 := by
  unfold addJsonMetadata
  split
  · exact h
  · split
    · exact h
    · split
      · exact h
      · simp only [lenInv, List.length_append, List.length_cons, List.length_nil]
        simpa [lenInv] using h

lemma length_materializedData (data : List DataObj) (i : Int) (d : DataObj) :
    (materializedData data i d).length = data.length := by
  cases d <;> simp only [materializedData]
  cases hidx : pyIdx data.length i with
  | none => simp [pySet, hidx]
  | some j => simp [pySet, hidx]

lemma lenInv_getResource {s : DPState} (h : lenInv s) (k) :
    lenInv (getResource s k).2 := by
  unfold getResource
  split
  · exact h
  · split
    · exact h
    · show lenInv (match pyGet s.resources _ with
        | none => (Except.error Err.indexError, _)
        | some r => (Except.ok (resolveSlot _, r), _)).2
      split
      · unfold lenInv at h ⊢
        simpa [length_materializedData] using h
      · unfold lenInv at h ⊢
        simpa [length_materializedData] using h

lemma pyDel_isSome_iff {l : List α} {i : Int} :
    (pyDel l i).isSome ↔ (pyIdx l.length i).isSome := by
  unfold pyDel
  cases pyIdx l.length i <;> simp

lemma length_filter_enumFrom (l : List α) (n : Nat) (q : Nat → Bool) :
    ((l.enumFrom n).filter (fun p => q p.1)).length =
      ((List.range' n l.length).filter q).length := by
  induction l generalizing n with
  | nil => rfl
  | cons a t ih =>
    simp only [List.enumFrom_cons, List.length_cons, List.range'_succ, List.filter_cons]
    cases q n <;> simp [ih]

lemma length_dropIdxs (l : List α) (bad : List Nat) :
    (dropIdxs l bad).length =
      ((List.range' 0 l.length).filter (fun i => decide (i ∉ bad))).length := by
  unfold dropIdxs
  rw [List.length_map, List.enum]
  exact length_filter_enumFrom l 0 (fun i => decide (i ∉ bad))

lemma pyIdx_lt {n : Nat} {i : Int} {j : Nat} (h : pyIdx n i = some j) : j < n := by
  unfold pyIdx at h
  split at h
  · split at h
    · rename_i h0 h1
      simp only [Option.some_inj] at h
      omega
    · simp at h
  · split at h
    · rename_i h0 h1
      simp only [Option.some_inj] at h
      omega
    · simp at h

lemma lenInv_delResourceAt {s : DPState} (h : lenInv s) (i : Int) :
    lenInv (delResourceAt s i).2 := by
  unfold delResourceAt
  cases hr : pyDel s.resources i with
  | none => exact h
  | some resources' =>
    cases hd : pyDel s.data i with
    | none =>
      exfalso
      have h1 : (pyDel s.resources i).isSome := by simp [hr]
      have h2 : ¬ (pyDel s.data i).isSome := by simp [hd]
      rw [pyDel_isSome_iff] at h1 h2
      rw [lenInv] at h
      rw [h] at h1
      exact h2 h1
    | some data' =>
      unfold lenInv at h ⊢
      simp only
      unfold pyDel at hr hd
      cases hidx : pyIdx s.resources.length i with
      | none => simp [hidx] at hr
      | some j =>
        have hidx' : pyIdx s.data.length i = some j := by rw [← h]; exact hidx
        simp only [hidx] at hr
        simp only [hidx'] at hd
        have hj : j < s.resources.length := pyIdx_lt hidx
        have hj' : j < s.data.length := h ▸ hj
        have hr' : s.resources.eraseIdx j = resources' := by simpa using hr
        have hd' : s.data.eraseIdx j = data' := by simpa using hd
        rw [← hr', ← hd']
        rw [List.length_eraseIdx_of_lt hj, List.length_eraseIdx_of_lt hj', h]

lemma lenInv_delResource {s : DPState} (h : lenInv s) (k) :
    lenInv (delResource s k).2 := by
  unfold delResource
  split
  · exact h
  · split
    · exact h
    · rename_i i _
      split
      · exact h
      · split
        · exact h
        · exact lenInv_delResourceAt h i

lemma lenInv_delResourceGroup {s : DPState} (h : lenInv s) (name) :
    lenInv (delResourceGroup s name).2 := by
  unfold delResourceGroup
  split
  · exact h
  · split
    · exact h
    · unfold lenInv at h ⊢
      simp only [length_dropIdxs, h]

lemma lenInv_writeModified {s : DPState} (h : lenInv s) :
    lenInv (writeModified s).2 := by
  unfold writeModified
  split
  · exact h
  · exact h

lemma lenInv_dehydrateStep_foldl (l : List Nat) (acc : OpResult) (hacc : lenInv acc.2) :
    lenInv (l.foldl dehydrateStep acc).2 := by
  induction l generalizing acc with
  | nil => exact hacc
  | cons a t ih =>
    simp only [List.foldl_cons]
    apply ih
    obtain ⟨e, st⟩ := acc
    cases e with
    | some e => exact hacc
    | none =>
      unfold dehydrateStep
      simp only
      split
      · unfold lenInv at hacc ⊢
        simpa using hacc
      · exact hacc

lemma lenInv_dehydrateInterfaces {s : DPState} (h : lenInv s) :
    lenInv (dehydrateInterfaces s).2 :=
  lenInv_dehydrateStep_foldl _ (none, s) h

lemma lenInv_finalizeSerialization {s : DPState} (h : lenInv s) :
    lenInv (finalizeSerialization s).2 := by
  unfold finalizeSerialization
  split
  · exact h
  · split
    · exact h
    · refine lenInv_bindOp (lenInv_dehydrateInterfaces h) fun s1 h1 => ?_
      split
      · exact h1
      · split
        · exact h1
        · exact h1

lemma lenInv_step {s s' : DPState} (hs : Step s s') (h : lenInv s) : lenInv s' := by
  cases hs with
  | addPersistentVector name i d f ds kp => exact lenInv_addPersistentVector h name i d f ds kp
  | addPersistentArray name i d f kp => exact lenInv_addPersistentArray h name i d f kp
  | addDynamic name i f kp => exact lenInv_addDynamic h name i f kp
  | addCsvMetadata name vf => exact lenInv_addCsvMetadata h name vf
  | addJsonMetadata name vf => exact lenInv_addJsonMetadata h name vf
  | getResource k => exact lenInv_getResource h k
  | delResource k => exact lenInv_delResource h k
  | delResourceGroup name => exact lenInv_delResourceGroup h name
  | writeModified => exact lenInv_writeModified h
  | finalizeSerialization => exact lenInv_finalizeSerialization h

lemma lenInv_of_reachable {s : DPState} (h : Reachable s) : lenInv s := by
  induction h with
  | init isMemory => rfl
  | step _ hstep ih => exact lenInv_step hstep ih

/-- Claim C1: `merge_datapackages_with_mask` is claimed to raise
`LengthMismatch` whenever the mask length, the first group's row count and
the second group's row count are not all equal — in particular whenever the
second group's row count differs from the mask length.  The source check
(merging.py:131) compares the first group's length with itself, so with a
first group of 5 rows, a second group of 10 rows and a mask of length 5 the
check passes and no `LengthMismatch` is raised; the call instead fails
inside numpy boolean masking of the second group with `IndexError`.  This
contradicts the function's own docstring ("Both resource arrays, and the
filter mask, must have the same length"). -/
theorem merge_mask_second_length_unchecked :
    mergeDatapackagesWithMask mergeFirstEx "g1" mergeSecondEx "g2" maskEx true =
      Except.error Err.indexError ∧
    mergeDatapackagesWithMask mergeFirstEx "g1" mergeSecondEx "g2" maskEx true ≠
      Except.error Err.lengthMismatch ∧
    dataLen ((filterByGroup mergeSecondEx "g2").data.getD 0 default) = some 10 ∧
    maskEx.length = 5 := by
  decide

/-- Claim C2: a second call to `finalize_serialization` is claimed to raise
`Closed`.  The source never sets `_finalized` to `True`, so the `Closed`
branch is dead: after a successful first call (which closes the filesystem)
the second call passes the `_finalized` test and fails only when
`file_writer` touches the closed filesystem — a filesystem error, not
`Closed`. -/
theorem second_finalize_never_raises_closed :
    (finalizeSerialization (initState false)).1 = none ∧
    (finalizeSerialization (initState false)).2.finalized = false ∧
    (finalizeSerialization (finalizeSerialization (initState false)).2).1 =
      some Err.filesystemClosed ∧
    (finalizeSerialization (finalizeSerialization (initState false)).2).1 ≠
      some Err.closed := by
  decide

/-- Claim C3, counterexample: `reindex` is claimed to raise `NonUnique`
whenever `data_iterable` contains two records with the same composite key.
Here the destination records with ids 1 and 2 share the key `(a=1)` (the
count of records with that key is 2), yet the call completes successfully,
because the only metadata row looks up the key `(a=2)`: the source
(indexing.py:135-147) only stores a sentinel for the duplicated key and
raises lazily when some metadata row hits it. -/
theorem reindex_duplicate_key_unmatched_succeeds :
    2 ≤ reindexDestEx.countP (fun r => destKey ["a"] r = [some (1 : Int)]) ∧
    reindexCore reindexDestEx ["a", "id"] reindexRowsEx none "id" "id" [[7]] =
      Except.ok ([[3]], [some 3]) := by
  decide

/-- Claim C4, counterexample: the referenced indices columns are claimed to
be collected with deduplication by underlying array, so that a column
referenced twice is only rewritten once and still correctly renumbered.  On
a package whose `valid_for` references the row column of `x` twice,
`reset_index` raises `KeyError` instead of succeeding: no deduplication
happens (indexing.py:40 collects one view per entry), the second rewrite
feeds the already-renumbered values through the original-value mapping, and
the dirty-set is never updated. -/
theorem reset_index_double_reference_raises_keyerror :
    (resetIndex resetIndexDoubleEx "meta").1 = some Err.keyError ∧
    (resetIndex resetIndexDoubleEx "meta").2.modified = [] ∧
    (resetIndex resetIndexEx "meta").1 = none := by
  decide

/-- Claim C7, counterexample: `add_persistent_vector` is claimed to raise
`WrongDatatype` for every non-boolean `flip_array`, including all-zero ones.
An all-zero integer (non-boolean) flip array is accepted silently: the dtype
test sits inside the `if flip_array.sum():` guard (datapackage.py:508-509),
so the call succeeds and no flip resource is created. -/
theorem nonbool_allzero_flip_accepted :
    (addPersistentVector (initState true) "y" [(1, 4)] none
        (some ⟨false, [0]⟩) none false).1 = none ∧
    ((addPersistentVector (initState true) "y" [(1, 4)] none
        (some ⟨false, [0]⟩) none false).2.resources.map Resource.name) =
      ["y.indices"] ∧
    (⟨false, [0]⟩ : FlipArray).dtypeIsBool = false := by
  decide

/-- Claim C8, counterexample: every mutating operation is claimed to check
`len(resources) == len(data)` before changing visible state and to raise
`LengthMismatch` when it fails.  `del_resource` performs no such check
(datapackage.py:97-113): applied to a package with two resource records but
one data object, it deletes a record and the data slot and returns without
raising. -/
theorem del_resource_skips_length_check :
    ¬ lenInv arityBadEx ∧
    (delResource arityBadEx (Key.idx 0)).1 = none ∧
    (delResource arityBadEx (Key.idx 0)).2 ≠ arityBadEx := by
  refine ⟨?_, by decide, by decide⟩
  unfold lenInv arityBadEx
  decide

/-- Claim C10: on a well-formed datapackage, `get_resource` with a negative
integer index `i` in `[-n, -1]` does not raise `IndexError` but returns the
data object and resource record at position `n + i`, because `_get_index`
only rejects integers at least `n` and Python list indexing then counts
negative indices from the end. -/
theorem get_resource_negative_index (s : DPState) (hlen : lenInv s) (i : Int)
    (hlow : -(s.resources.length : Int) ≤ i) (hhigh : i ≤ -1) :
    (∀ i' : Int, getIndex s (Key.idx i') = Except.error Err.indexError ↔
        (s.resources.length : Int) ≤ i') ∧
    ∃ j : Nat, (j : Int) = (s.resources.length : Int) + i ∧ j < s.resources.length ∧
      (getResource s (Key.idx i)).1 =
        Except.ok (resolveSlot (s.data.getD j default), s.resources.getD j default) := by
  constructor
  · intro i'
    by_cases hc : (s.resources.length : Int) ≤ i'
    · simp [getIndex, hc]
    · simp [getIndex, hc]
  · have hdlen : s.data.length = s.resources.length := hlen.symm
    refine ⟨((s.resources.length : Int) + i).toNat, by omega, by omega, ?_⟩
    have hgi : getIndex s (Key.idx i) = Except.ok i := by
      simp only [getIndex]
      rw [if_neg (by omega)]
    have hj : ((s.resources.length : Int) + i).toNat < s.resources.length := by omega
    have hidxd : pyIdx s.data.length i = some ((s.resources.length : Int) + i).toNat := by
      unfold pyIdx
      rw [if_neg (by omega), hdlen]
      rw [if_pos (by omega)]
    have hidxr : pyIdx s.resources.length i =
        some ((s.resources.length : Int) + i).toNat := by
      unfold pyIdx
      rw [if_neg (by omega), if_pos (by omega)]
    have hpg : pyGet s.data i = s.data.get? ((s.resources.length : Int) + i).toNat := by
      unfold pyGet
      rw [hidxd]
      rfl
    have hpgr : pyGet s.resources i =
        s.resources.get? ((s.resources.length : Int) + i).toNat := by
      unfold pyGet
      rw [hidxr]
      rfl
    obtain ⟨d, hd⟩ : ∃ d, s.data.get? ((s.resources.length : Int) + i).toNat = some d := by
      rw [List.get?_eq_getElem?]
      exact ⟨_, List.getElem?_eq_getElem (by omega)⟩
    obtain ⟨r, hr⟩ : ∃ r, s.resources.get? ((s.resources.length : Int) + i).toNat = some r := by
      rw [List.get?_eq_getElem?]
      exact ⟨_, List.getElem?_eq_getElem hj⟩
    have hdD : s.data.getD ((s.resources.length : Int) + i).toNat default = d := by
      rw [List.getD_eq_getElem?_getD, ← List.get?_eq_getElem?, hd, Option.getD_some]
    have hrD : s.resources.getD ((s.resources.length : Int) + i).toNat default = r := by
      rw [List.getD_eq_getElem?_getD, ← List.get?_eq_getElem?, hr, Option.getD_some]
    rw [hdD, hrD]
    unfold getResource
    rw [hgi]
    simp only [hpg, hd, hpgr, hr]

/-- Witness for claim C10 at a concrete two-resource package and index -1. -/
theorem get_resource_negative_index_witness :
    (∀ i' : Int, getIndex negIndexEx (Key.idx i') = Except.error Err.indexError ↔
        (negIndexEx.resources.length : Int) ≤ i') ∧
    ∃ j : Nat, (j : Int) = (negIndexEx.resources.length : Int) + (-1) ∧
      j < negIndexEx.resources.length ∧
      (getResource negIndexEx (Key.idx (-1))).1 =
        Except.ok (resolveSlot (negIndexEx.data.getD j default),
          negIndexEx.resources.getD j default) :=
  get_resource_negative_index negIndexEx (by decide) (-1) (by decide) (by decide)

lemma addNumpy_ok {s : DPState} (hfs : ¬ (¬ s.fs.isMemory ∧ s.fs.closed))
    (array : DataObj) (name kind : String) (group : Option String)
    (nrows : Nat) (kp : Bool) :
    addNumpyArrayResource s array name kind group nrows kp =
      (none, ⟨s.resources ++ [⟨name, group, kind, "data-resource", some "npy", nrows, true, []⟩],
        s.data ++ [if kp then DataObj.proxy array else array],
        s.finalized, s.modified, s.fs⟩) := by
  unfold addNumpyArrayResource
  rw [if_neg hfs]

lemma lowUncertaintyCount_lt_iff (uts : List Int) :
    lowUncertaintyCount uts < uts.length ↔ ∃ ut ∈ uts, 2 ≤ ut := by
  unfold lowUncertaintyCount
  constructor
  · intro h
    by_contra hc
    push_neg at hc
    have : uts.countP (fun ut => decide (ut < 2)) = uts.length :=
      List.countP_eq_length.mpr (fun a ha => by
        simp only [decide_eq_true_eq]
        have := hc a ha
        omega)
    omega
  · rintro ⟨ut, hut, h2⟩
    have hne : uts.countP (fun ut => decide (ut < 2)) ≠ uts.length := by
      intro he
      have := List.countP_eq_length.mp he ut hut
      simp only [decide_eq_true_eq] at this
      omega
    have hle : uts.countP (fun ut => decide (ut < 2)) ≤ uts.length :=
      List.countP_le_length _
    omega

lemma string_append_cancel {s t u : String} : s ++ t = s ++ u ↔ t = u := by
  constructor
  · intro h
    have hd := congrArg String.data h
    simp only [String.data_append, List.append_right_inj] at hd
    exact String.ext hd
  · intro h
    rw [h]

lemma flipBlock_state (s : DPState) (flipArray : Option FlipArray)
    (name : String) (nrows : Nat) (kp : Bool) :
    ∃ (tail : List Resource) (dtail : List DataObj),
      (flipBlock s flipArray name nrows kp).2 =
        ⟨s.resources ++ tail, s.data ++ dtail, s.finalized, s.modified, s.fs⟩ ∧
      (∀ r ∈ tail, r.name = name ++ ".flip") ∧
      (∀ d ∈ dtail, isDistSlot d = false) := by
  cases flipArray with
  | none =>
      refine ⟨[], [], ?_, by simp, by simp⟩
      cases s
      simp [flipBlock]
  | some f =>
      by_cases hsum : f.elems.sum ≠ 0
      · by_cases hb : ¬ f.dtypeIsBool
        · refine ⟨[], [], ?_, by simp, by simp⟩
          simp only [flipBlock]
          rw [if_pos hsum, if_pos hb]
          cases s
          simp
        · by_cases hlen : f.elems.length ≠ nrows
          · refine ⟨[], [], ?_, by simp, by simp⟩
            simp only [flipBlock]
            rw [if_pos hsum, if_neg hb, if_pos hlen]
            cases s
            simp
          · simp only [flipBlock]
            rw [if_pos hsum, if_neg hb, if_neg hlen]
            unfold addNumpyArrayResource
            by_cases hfs : ¬ s.fs.isMemory ∧ s.fs.closed
            · refine ⟨[], [], ?_, by simp, by simp⟩
              rw [if_pos hfs]
              cases s
              simp
            · rw [if_neg hfs]
              refine ⟨[⟨name ++ ".flip", some name, "flip", "data-resource",
                some "npy", nrows, true, []⟩],
                [if kp then DataObj.proxy (DataObj.flipArr f) else DataObj.flipArr f],
                rfl, by simp, ?_⟩
              intro d hd
              simp only [List.mem_singleton] at hd
              subst hd
              cases kp <;> simp [isDistSlot]
      · refine ⟨[], [], ?_, by simp, by simp⟩
        simp only [flipBlock]
        rw [if_neg hsum]
        cases s
        simp

lemma flipBlock_wrongDatatype (s : DPState) (f : FlipArray) (name : String)
    (nrows : Nat) (kp : Bool) (hsum : f.elems.sum ≠ 0)
    (hb : f.dtypeIsBool = false) :
    flipBlock s (some f) name nrows kp = (some Err.wrongDatatype, s) := by
  simp only [flipBlock]
  rw [if_pos hsum, if_pos (by simp [hb])]

lemma dataBlock_ok {t : DPState} {dataArray : Option NumArray} {iaLen : Nat}
    (hd : dataArray = none ∨ ∃ xs, dataArray = some (NumArray.oneD xs) ∧ xs.length = iaLen)
    (hfs : ¬ (¬ t.fs.isMemory ∧ t.fs.closed)) (name : String) (nrows : Nat) (kp : Bool) :
    ∃ (tailR : List Resource) (tailD : List DataObj),
      dataBlock t dataArray iaLen name nrows kp =
        (none, ⟨t.resources ++ tailR, t.data ++ tailD, t.finalized, t.modified, t.fs⟩) ∧
      (∀ r ∈ tailR, r.name = name ++ ".data") ∧
      (∀ d ∈ tailD, isDistSlot d = false) := by
  rcases hd with hd | ⟨xs, hd, hlen⟩
  · subst hd
    refine ⟨[], [], ?_, by simp, by simp⟩
    cases t
    simp [dataBlock]
  · subst hd
    simp only [dataBlock]
    rw [if_neg (by omega), addNumpy_ok hfs]
    refine ⟨[⟨name ++ ".data", some name, "data", "data-resource", some "npy",
      nrows, true, []⟩],
      [if kp then DataObj.proxy (DataObj.numArr (NumArray.oneD xs))
        else DataObj.numArr (NumArray.oneD xs)], rfl, by simp, ?_⟩
    intro d hdm
    simp only [List.mem_singleton] at hdm
    subst hdm
    cases kp <;> simp [isDistSlot]

lemma distBlock_skip {uts : List Int} (t : DPState)
    (hskip : ¬ lowUncertaintyCount uts < uts.length) (iaLen : Nat)
    (name : String) (nrows : Nat) (kp : Bool) :
    distBlock t (some uts) iaLen name nrows kp = (none, t) := by
  simp only [distBlock]
  rw [if_neg hskip]

lemma distBlock_add {t : DPState} {uts : List Int} {iaLen : Nat}
    (hadd : lowUncertaintyCount uts < uts.length) (hlen : uts.length = iaLen)
    (hfs : ¬ (¬ t.fs.isMemory ∧ t.fs.closed)) (name : String) (nrows : Nat) (kp : Bool) :
    distBlock t (some uts) iaLen name nrows kp =
      (none, ⟨t.resources ++ [⟨name ++ ".distributions", some name, "distributions",
        "data-resource", some "npy", nrows, true, []⟩],
        t.data ++ [if kp then DataObj.proxy (DataObj.distArr uts) else DataObj.distArr uts],
        t.finalized, t.modified, t.fs⟩) := by
  simp only [distBlock]
  rw [if_pos hadd, if_neg (by omega), addNumpy_ok hfs]

lemma distBlock_ok {t : DPState} {dist : Option (List Int)} {iaLen : Nat}
    (hd : dist = none ∨ ∃ uts, dist = some uts ∧ uts.length = iaLen)
    (hfs : ¬ (¬ t.fs.isMemory ∧ t.fs.closed)) (name : String) (nrows : Nat) (kp : Bool) :
    ∃ (tailR : List Resource) (tailD : List DataObj),
      distBlock t dist iaLen name nrows kp =
        (none, ⟨t.resources ++ tailR, t.data ++ tailD, t.finalized, t.modified, t.fs⟩) ∧
      (∀ r ∈ tailR, r.name = name ++ ".distributions") := by
  rcases hd with hd | ⟨uts, hd, hlen⟩
  · subst hd
    refine ⟨[], [], ?_, by simp⟩
    cases t
    simp [distBlock]
  · subst hd
    by_cases hlow : lowUncertaintyCount uts < uts.length
    · rw [distBlock_add hlow hlen hfs name nrows kp]
      exact ⟨_, _, rfl, by simp⟩
    · rw [distBlock_skip t hlow]
      refine ⟨[], [], ?_, by simp⟩
      cases t
      simp

lemma flipBlock_skipZero {t : DPState} {g : FlipArray} (hg : g.elems.sum = 0)
    (name : String) (nrows : Nat) (kp : Bool) :
    flipBlock t (some g) name nrows kp = (none, t) := by
  simp only [flipBlock]
  rw [if_neg (by simpa using hg)]

/-- Claim C6: under the conditions in which `add_persistent_vector`'s other
members pass their checks, the call appends a `{name}.distributions`
resource (and a distributions data slot) if and only if some row of the
supplied distributions array carries an uncertainty-type discriminator of 2
or more; when every row's discriminator is below 2 the member is silently
skipped and neither a resource nor a data slot is appended for it. -/
theorem add_persistent_vector_distributions_iff
    (s : DPState) (name : String) (ia : List (Int × Int))
    (da : Option NumArray) (fa : Option FlipArray) (uts : List Int) (kp : Bool)
    (h1 : prepareModifications s = none)
    (h2 : prepareName s name = none)
    (hfs : ¬ (¬ s.fs.isMemory ∧ s.fs.closed))
    (hdata : da = none ∨ ∃ xs, da = some (NumArray.oneD xs) ∧ xs.length = ia.length)
    (hdist : uts.length = ia.length) :
    ((∃ r ∈ (addPersistentVector s name ia da fa (some uts) kp).2.resources.drop
        s.resources.length, r.name = name ++ ".distributions") ↔ ∃ ut ∈ uts, 2 ≤ ut) ∧
    ((∃ d ∈ (addPersistentVector s name ia da fa (some uts) kp).2.data.drop
        s.data.length, isDistSlot d = true) ↔ ∃ ut ∈ uts, 2 ≤ ut) := by
  have hcount := lowUncertaintyCount_lt_iff uts
  simp only [addPersistentVector, h1, h2]
  rw [addNumpy_ok hfs]
  simp only [bindOp]
  set S1 : DPState := ⟨s.resources ++ [⟨name ++ ".indices", some name, "indices",
    "data-resource", some "npy", ia.length, true, []⟩],
    s.data ++ [if kp then DataObj.proxy (DataObj.indicesArr ia) else DataObj.indicesArr ia],
    s.finalized, s.modified, s.fs⟩ with hS1
  have hfs1 : ¬ (¬ S1.fs.isMemory ∧ S1.fs.closed) := hfs
  obtain ⟨tR1, tD1, hdataEq, hnames1, hslots1⟩ :=
    @dataBlock_ok S1 _ _ hdata hfs1 name ia.length kp
  rw [hdataEq]
  simp only [bindOp]
  set S2 : DPState := ⟨S1.resources ++ tR1, S1.data ++ tD1,
    S1.finalized, S1.modified, S1.fs⟩ with hS2
  have hfs2 : ¬ (¬ S2.fs.isMemory ∧ S2.fs.closed) := hfs
  by_cases hd2 : lowUncertaintyCount uts < uts.length
  · rw [@distBlock_add S2 _ _ hd2 hdist hfs2 _ _ _]
    simp only [bindOp]
    set S3 : DPState := ⟨S2.resources ++ [⟨name ++ ".distributions", some name,
      "distributions", "data-resource", some "npy", ia.length, true, []⟩],
      S2.data ++ [if kp then DataObj.proxy (DataObj.distArr uts) else DataObj.distArr uts],
      S2.finalized, S2.modified, S2.fs⟩ with hS3
    obtain ⟨tF, tDF, hflipEq, hnamesF, hslotsF⟩ :=
      flipBlock_state S3 fa name ia.length kp
    rw [hflipEq]
    have hex : ∃ ut ∈ uts, 2 ≤ ut := hcount.mp hd2
    constructor
    · simp only [hS3, hS2, hS1, List.append_assoc, List.drop_left]
      constructor
      · intro _
        exact hex
      · intro _
        exact ⟨⟨name ++ ".distributions", some name, "distributions",
          "data-resource", some "npy", ia.length, true, []⟩, by simp, rfl⟩
    · simp only [hS3, hS2, hS1, List.append_assoc, List.drop_left]
      constructor
      · intro _
        exact hex
      · intro _
        refine ⟨if kp then DataObj.proxy (DataObj.distArr uts) else DataObj.distArr uts,
          by simp, ?_⟩
        cases kp <;> simp [isDistSlot]
  · rw [distBlock_skip S2 hd2]
    simp only [bindOp]
    obtain ⟨tF, tDF, hflipEq, hnamesF, hslotsF⟩ :=
      flipBlock_state S2 fa name ia.length kp
    rw [hflipEq]
    have hnex : ¬ ∃ ut ∈ uts, 2 ≤ ut := fun hex => hd2 (hcount.mpr hex)
    constructor
    · simp only [hS2, hS1, List.append_assoc, List.drop_left]
      constructor
      · rintro ⟨r, hr, hrn⟩
        exfalso
        simp only [List.mem_cons, List.mem_append, List.not_mem_nil, or_false,
          List.mem_singleton] at hr
        rcases hr with hr | hr | hr
        · subst hr
          simp only at hrn
          rw [string_append_cancel] at hrn
          exact absurd hrn (by decide)
        · have := hnames1 r hr
          rw [this, string_append_cancel] at hrn
          exact absurd hrn (by decide)
        · have := hnamesF r hr
          rw [this, string_append_cancel] at hrn
          exact absurd hrn (by decide)
      · intro hex
        exact absurd hex hnex
    · simp only [hS2, hS1, List.append_assoc, List.drop_left]
      constructor
      · rintro ⟨d, hdm, hds⟩
        exfalso
        simp only [List.mem_cons, List.mem_append, List.not_mem_nil, or_false,
          List.mem_singleton] at hdm
        rcases hdm with hdm | hdm | hdm
        · subst hdm
          cases kp <;> simp [isDistSlot] at hds
        · rw [hslots1 d hdm] at hds
          exact Bool.false_ne_true hds
        · rw [hslotsF d hdm] at hds
          exact Bool.false_ne_true hds
      · intro hex
        exact absurd hex hnex

/-- Witness for claim C6: on an empty in-memory package, adding a vector with
distributions `[0, 2]` creates the distributions resource, and the
uncertainty condition holds. -/
theorem add_persistent_vector_distributions_iff_witness :
    (∃ r ∈ (addPersistentVector (initState true) "x" [(1, 4), (2, 5)] none none
        (some [0, 2]) false).2.resources.drop (initState true).resources.length,
      r.name = "x" ++ ".distributions") ↔ ∃ ut ∈ ([0, 2] : List Int), 2 ≤ ut :=
  (add_persistent_vector_distributions_iff (initState true) "x" [(1, 4), (2, 5)]
    none none [0, 2] false rfl rfl (by decide) (Or.inl rfl) rfl).1

/-- Claim C7, amended: whenever a supplied `flip_array` has a truthy
(non-zero) element sum and a non-boolean dtype, `add_persistent_vector`
raises `WrongDatatype` (given that the other members pass their checks);
whereas a `flip_array` whose elements sum to zero is silently skipped — no
error and no `{name}.flip` resource — regardless of dtype. -/
theorem add_persistent_vector_flip_wrong_datatype
    (s : DPState) (name : String) (ia : List (Int × Int))
    (da : Option NumArray) (dist : Option (List Int)) (kp : Bool)
    (h1 : prepareModifications s = none)
    (h2 : prepareName s name = none)
    (hfs : ¬ (¬ s.fs.isMemory ∧ s.fs.closed))
    (hdata : da = none ∨ ∃ xs, da = some (NumArray.oneD xs) ∧ xs.length = ia.length)
    (hdistH : dist = none ∨ ∃ uts, dist = some uts ∧ uts.length = ia.length) :
    (∀ f : FlipArray, f.elems.sum ≠ 0 → f.dtypeIsBool = false →
      (addPersistentVector s name ia da (some f) dist kp).1 = some Err.wrongDatatype) ∧
    (∀ g : FlipArray, g.elems.sum = 0 →
      (addPersistentVector s name ia da (some g) dist kp).1 = none ∧
      ∀ r ∈ (addPersistentVector s name ia da (some g) dist kp).2.resources.drop
        s.resources.length, r.name ≠ name ++ ".flip") := by
  simp only [addPersistentVector, h1, h2]
  rw [addNumpy_ok hfs]
  simp only [bindOp]
  set S1 : DPState := ⟨s.resources ++ [⟨name ++ ".indices", some name, "indices",
    "data-resource", some "npy", ia.length, true, []⟩],
    s.data ++ [if kp then DataObj.proxy (DataObj.indicesArr ia) else DataObj.indicesArr ia],
    s.finalized, s.modified, s.fs⟩ with hS1
  have hfs1 : ¬ (¬ S1.fs.isMemory ∧ S1.fs.closed) := hfs
  obtain ⟨tR1, tD1, hdataEq, hnames1, hslots1⟩ :=
    @dataBlock_ok S1 _ _ hdata hfs1 name ia.length kp
  rw [hdataEq]
  simp only [bindOp]
  set S2 : DPState := ⟨S1.resources ++ tR1, S1.data ++ tD1,
    S1.finalized, S1.modified, S1.fs⟩ with hS2
  have hfs2 : ¬ (¬ S2.fs.isMemory ∧ S2.fs.closed) := hfs
  obtain ⟨tR2, tD2, hdistEq, hnames2⟩ :=
    @distBlock_ok S2 _ _ hdistH hfs2 name ia.length kp
  rw [hdistEq]
  simp only [bindOp]
  set S3 : DPState := ⟨S2.resources ++ tR2, S2.data ++ tD2,
    S2.finalized, S2.modified, S2.fs⟩ with hS3
  constructor
  · intro f hsum hb
    rw [flipBlock_wrongDatatype S3 f name ia.length kp hsum hb]
  · intro g hg
    rw [flipBlock_skipZero hg name ia.length kp]
    refine ⟨rfl, ?_⟩
    intro r hr hrn
    simp only [hS3, hS2, hS1, List.append_assoc, List.drop_left] at hr
    simp only [List.mem_cons, List.mem_append, List.not_mem_nil, or_false,
      List.mem_singleton] at hr
    rcases hr with hr | hr | hr
    · subst hr
      simp only at hrn
      rw [string_append_cancel] at hrn
      exact absurd hrn (by decide)
    · have := hnames1 r hr
      rw [this, string_append_cancel] at hrn
      exact absurd hrn (by decide)
    · have := hnames2 r hr
      rw [this, string_append_cancel] at hrn
      exact absurd hrn (by decide)

/-- Witness for claim C7 (amended) on an empty in-memory package: a one-row
vector with a non-boolean flip array `[1]` raises `WrongDatatype`, and an
all-zero flip array is accepted. -/
theorem add_persistent_vector_flip_wrong_datatype_witness :
    (addPersistentVector (initState true) "y" [(1, 4)] none
      (some ⟨false, [1]⟩) none false).1 = some Err.wrongDatatype ∧
    (addPersistentVector (initState true) "y" [(1, 4)] none
      (some ⟨false, [0]⟩) none false).1 = none :=
  ⟨(add_persistent_vector_flip_wrong_datatype (initState true) "y" [(1, 4)]
      none none false rfl rfl (by decide) (Or.inl rfl) (Or.inl rfl)).1
      ⟨false, [1]⟩ (by decide) rfl,
    ((add_persistent_vector_flip_wrong_datatype (initState true) "y" [(1, 4)]
      none none false rfl rfl (by decide) (Or.inl rfl) (Or.inl rfl)).2
      ⟨false, [0]⟩ (by decide)).1⟩

lemma prepareModifications_bad {s : DPState} (h : ¬ lenInv s) :
    prepareModifications s = some Err.lengthMismatch := by
  unfold prepareModifications checkLengthConsistency
  rw [if_pos (show s.resources.length ≠ s.data.length from h)]

lemma filter_interface_nil {l : List Resource} (h : ∀ r ∈ l, r.profile ≠ "interface") :
    ∀ n, (l.enumFrom n).filter (fun p => p.2.profile = "interface") = [] := by
  induction l with
  | nil => intro n; rfl
  | cons a t ih =>
    intro n
    simp only [List.enumFrom_cons, List.filter_cons]
    rw [if_neg (by simpa using h a (by simp))]
    exact ih (fun r hr => h r (by simp [hr])) (n + 1)

/-- Claim C8, amended: for every reachable state of a datapackage,
`len(resources) == len(data)` holds.  The `add_*` operations check the
invariant up front (through `_prepare_modifications`) and raise
`LengthMismatch` without mutating on a violating state — for
`add_csv_metadata` and `add_json_metadata` once their own argument
assertions pass — and `finalize_serialization` checks it after dehydrating
interfaces; but `del_resource` performs no such check: on a violating state
it mutates and returns without raising. -/
theorem arity_invariant_and_checks :
    (∀ s : DPState, Reachable s → lenInv s) ∧
    (∀ (s : DPState) name ia da f ds kp, ¬ lenInv s →
      addPersistentVector s name ia da f ds kp = (some Err.lengthMismatch, s)) ∧
    (∀ (s : DPState) name ia da f kp, ¬ lenInv s →
      addPersistentArray s name ia da f kp = (some Err.lengthMismatch, s)) ∧
    (∀ (s : DPState) name ia f kp, ¬ lenInv s →
      addDynamic s name ia f kp = (some Err.lengthMismatch, s)) ∧
    (∀ (s : DPState) name vf, vf.all (fun p => p.1 ∈ groupLabels s) →
      prepareName s name = none → ¬ lenInv s →
      addCsvMetadata s name vf = (some Err.lengthMismatch, s)) ∧
    (∀ (s : DPState) name vf, vf ∈ groupLabels s → ¬ lenInv s →
      addJsonMetadata s name vf = (some Err.lengthMismatch, s)) ∧
    (∀ s : DPState, ¬ lenInv s → s.finalized = false → s.fs.isMemory = false →
      (∀ r ∈ s.resources, r.profile ≠ "interface") →
      finalizeSerialization s = (some Err.lengthMismatch, s)) ∧
    ((delResource arityBadEx (Key.idx 0)).1 = none ∧
      (delResource arityBadEx (Key.idx 0)).2 ≠ arityBadEx) := by
  refine ⟨fun s h => lenInv_of_reachable h, ?_, ?_, ?_, ?_, ?_, ?_, by decide, by decide⟩
  · intro s name ia da f ds kp h
    simp only [addPersistentVector, prepareModifications_bad h]
  · intro s name ia da f kp h
    simp only [addPersistentArray, prepareModifications_bad h]
  · intro s name ia f kp h
    simp only [addDynamic, prepareModifications_bad h]
  · intro s name vf hvf hn h
    simp only [addCsvMetadata]
    rw [if_neg (by simpa using hvf)]
    simp only [hn, prepareModifications_bad h]
  · intro s name vf hvf h
    simp only [addJsonMetadata]
    rw [if_neg (by simpa using hvf)]
    simp only [prepareModifications_bad h]
  · intro s h hfin hmem hint
    unfold finalizeSerialization
    rw [if_neg (by simp [hfin]), if_neg (by simp [hmem])]
    have hdeh : dehydrateInterfaces s = (none, s) := by
      unfold dehydrateInterfaces
      rw [List.enum, filter_interface_nil hint 0]
      rfl
    rw [hdeh]
    simp only [bindOp]
    unfold checkLengthConsistency
    rw [if_pos (show s.resources.length ≠ s.data.length from h)]

/-- Witness for claim C8 (amended): the empty in-memory package satisfies the
invariant, and `add_persistent_vector` on the inconsistent probe state raises
`LengthMismatch` without mutating. -/
theorem arity_invariant_and_checks_witness :
    lenInv (initState true) ∧
    addPersistentVector arityBadEx "c" [] none none none false =
      (some Err.lengthMismatch, arityBadEx) :=
  ⟨arity_invariant_and_checks.1 (initState true) (Reachable.init true),
    arity_invariant_and_checks.2.1 arityBadEx "c" [] none none none false
      (by unfold lenInv arityBadEx; decide)⟩

lemma mapOpt_some_length {f : α → Option β} :
    ∀ {l : List α} {m : List β}, mapOpt f l = some m → m.length = l.length := by
  intro l
  induction l with
  | nil =>
    intro m hm
    simp only [mapOpt, Option.some_inj] at hm
    simp [← hm]
  | cons a t ih =>
    intro m hm
    simp only [mapOpt] at hm
    cases hfa : f a with
    | none => rw [hfa] at hm; exact absurd hm (by simp)
    | some b =>
      rw [hfa] at hm
      cases hmt : mapOpt f t with
      | none => rw [hmt] at hm; exact absurd hm (by simp)
      | some bs =>
        rw [hmt] at hm
        simp only [Option.map, Option.some_inj] at hm
        subst hm
        simp [ih hmt]

lemma mapOpt_eq_map {f : α → Option β} {g : α → β} :
    ∀ {l : List α}, (∀ a ∈ l, f a = some (g a)) → mapOpt f l = some (l.map g) := by
  intro l
  induction l with
  | nil => intro _; rfl
  | cons a t ih =>
    intro hl
    simp only [mapOpt, hl a (by simp), ih (fun x hx => hl x (by simp [hx])),
      List.map_cons]
    rfl

lemma mapperOf_eq_some_of_mem {l : List Int} {v : Int} (h : v ∈ l) :
    mapperOf l v = some (rankIn l v) := by
  induction l with
  | nil => cases h
  | cons a t ih =>
    by_cases hav : a = v
    · simp [mapperOf, rankIn, hav]
    · have hmem : v ∈ t := by
        cases h with
        | head => exact absurd rfl hav
        | tail _ h => exact h
      simp [mapperOf, rankIn, hav, ih hmem]

lemma mapperOf_cols_of_mem {uniq : List Int} {col : List Int}
    (h : ∀ v ∈ col, v ∈ uniq) :
    mapOpt (mapperOf uniq) col = some (col.map (fun v => rankIn uniq v)) :=
  mapOpt_eq_map (fun v hv => mapperOf_eq_some_of_mem (h v hv))

lemma length_colOf (xs : List (Int × Int)) (lab : Bool) :
    (colOf xs lab).length = xs.length := by
  cases lab <;> simp [colOf]

lemma length_setColOf {xs : List (Int × Int)} {new : List Int} (lab : Bool)
    (hlen : new.length = xs.length) :
    (setColOf xs lab new).length = xs.length := by
  cases lab <;> simp [setColOf, hlen]

lemma colOf_setColOf_same {xs : List (Int × Int)} {new : List Int} (lab : Bool)
    (hlen : new.length = xs.length) :
    colOf (setColOf xs lab new) lab = new := by
  cases lab
  · simp only [setColOf, colOf, if_neg, Bool.false_eq_true, if_false]
    exact List.map_snd_zip _ _ (by simpa using hlen.le)
  · simp only [setColOf, colOf, if_pos rfl]
    exact List.map_fst_zip _ _ (by simpa using hlen.le)

lemma colOf_setColOf_other {xs : List (Int × Int)} {new : List Int}
    {lab lab' : Bool} (hne : lab' ≠ lab) (hlen : new.length = xs.length) :
    colOf (setColOf xs lab new) lab' = colOf xs lab' := by
  cases lab
  · have : lab' = true := by
      cases lab'
      · exact absurd rfl hne
      · rfl
    subst this
    simp only [setColOf, colOf, Bool.false_eq_true, if_false, if_pos rfl]
    exact List.map_fst_zip _ _ (by simpa using hlen.ge)
  · have : lab' = false := by
      cases lab'
      · rfl
      · exact absurd rfl hne
    subst this
    simp only [setColOf, colOf, if_pos rfl, Bool.false_eq_true, if_false]
    exact List.map_snd_zip _ _ (by simpa using hlen.ge)

lemma writeCol_resources (s : DPState) (h : ColHandle) (new : List Int) :
    (writeCol s h new).resources = s.resources := by
  unfold writeCol
  split <;> rfl

lemma writeCol_finalized (s : DPState) (h : ColHandle) (new : List Int) :
    (writeCol s h new).finalized = s.finalized := by
  unfold writeCol
  split <;> rfl

lemma writeCol_modified (s : DPState) (h : ColHandle) (new : List Int) :
    (writeCol s h new).modified = s.modified := by
  unfold writeCol
  split <;> rfl

lemma writeCol_fs (s : DPState) (h : ColHandle) (new : List Int) :
    (writeCol s h new).fs = s.fs := by
  unfold writeCol
  split <;> rfl

lemma readCol_writeCol_same {s : DPState} {h : ColHandle} {col new : List Int}
    (hread : readCol s h = some col) (hlen : new.length = col.length) :
    readCol (writeCol s h new) h = some new := by
  unfold readCol at hread
  cases hget : s.data.get? h.1 with
  | none => rw [hget] at hread; exact absurd hread (by simp)
  | some d =>
    rw [hget] at hread
    match d, hread with
    | DataObj.indicesArr xs, hread =>
      have hcol : colOf xs h.2 = col := by
        simpa using hread
      have hp : h.1 < s.data.length := by
        by_contra hc
        rw [List.get?_eq_getElem?, List.getElem?_eq_none (by omega)] at hget
        cases hget
      unfold writeCol
      rw [hget]
      unfold readCol
      simp only [List.get?_eq_getElem?, List.getElem?_set_self (by simpa using hp)]
      rw [colOf_setColOf_same h.2 (by rw [hlen, ← hcol, length_colOf])]

lemma readCol_writeCol_ne {s : DPState} {h h' : ColHandle} {col new : List Int}
    (hread : readCol s h = some col) (hlen : new.length = col.length)
    (hne : h' ≠ h) :
    readCol (writeCol s h new) h' = readCol s h' := by
  unfold readCol at hread
  cases hget : s.data.get? h.1 with
  | none => rw [hget] at hread; exact absurd hread (by simp)
  | some d =>
    rw [hget] at hread
    match d, hread with
    | DataObj.indicesArr xs, hread =>
      have hcol : colOf xs h.2 = col := by
        simpa using hread
      unfold writeCol
      rw [hget]
      by_cases hpos : h'.1 = h.1
      · have hlab : h'.2 ≠ h.2 := by
          intro hlab
          exact hne (Prod.ext hpos hlab)
        unfold readCol
        simp only [List.get?_eq_getElem?]
        have hp : h.1 < s.data.length := by
          by_contra hc
          rw [List.get?_eq_getElem?, List.getElem?_eq_none (by omega)] at hget
          cases hget
        rw [hpos, List.getElem?_set_self (by simpa using hp)]
        rw [← List.get?_eq_getElem?, hget]
        simp only
        rw [colOf_setColOf_other hlab (by rw [hlen, ← hcol, length_colOf])]
      · unfold readCol
        simp only [List.get?_eq_getElem?]
        rw [List.getElem?_set_ne (fun hx => hpos hx.symm)]

lemma mapOpt_isSome_of_forall {f : α → Option β} :
    ∀ {l : List α}, (∀ a ∈ l, (f a).isSome) → (mapOpt f l).isSome := by
  intro l
  induction l with
  | nil => intro _; rfl
  | cons a t ih =>
    intro hl
    obtain ⟨b, hb⟩ := Option.isSome_iff_exists.mp (hl a (by simp))
    have := ih (fun x hx => hl x (by simp [hx]))
    obtain ⟨bs, hbs⟩ := Option.isSome_iff_exists.mp this
    simp [mapOpt, hb, hbs]

lemma rewriteCols_ok {mapper : Int → Option Nat} :
    ∀ (handles : List ColHandle) (s : DPState),
      handles.Nodup →
      (∀ h ∈ handles, (readCol s h).isSome) →
      (∀ h ∈ handles, ∀ col, readCol s h = some col → ∀ v ∈ col, (mapper v).isSome) →
      (rewriteCols mapper s handles).1 = none ∧
      (rewriteCols mapper s handles).2.resources = s.resources ∧
      (rewriteCols mapper s handles).2.finalized = s.finalized ∧
      (rewriteCols mapper s handles).2.modified = s.modified ∧
      (rewriteCols mapper s handles).2.fs = s.fs ∧
      (∀ h', h' ∉ handles → readCol (rewriteCols mapper s handles).2 h' = readCol s h') ∧
      (∀ h ∈ handles, ∀ col m, readCol s h = some col → mapOpt mapper col = some m →
        readCol (rewriteCols mapper s handles).2 h = some (m.map Int.ofNat)) := by
  intro handles
  induction handles with
  | nil =>
    intro s _ _ _
    exact ⟨rfl, rfl, rfl, rfl, rfl, fun h' _ => rfl,
      fun h hh => absurd hh (List.not_mem_nil h)⟩
  | cons h rest ih =>
    intro s hnodup hread hmap
    obtain ⟨col, hcol⟩ := Option.isSome_iff_exists.mp (hread h (by simp))
    obtain ⟨m, hm⟩ := Option.isSome_iff_exists.mp
      (mapOpt_isSome_of_forall (hmap h (by simp) col hcol))
    have hmlen : (m.map Int.ofNat).length = col.length := by
      simp [mapOpt_some_length hm]
    have hstep : rewriteCols mapper s (h :: rest) =
        rewriteCols mapper (writeCol s h (m.map Int.ofNat)) rest := by
      simp only [rewriteCols, hcol, hm]
    have hhne : h ∉ rest := (List.nodup_cons.mp hnodup).1
    have hnodup' : rest.Nodup := (List.nodup_cons.mp hnodup).2
    have hro : ∀ h' ∈ rest, readCol (writeCol s h (m.map Int.ofNat)) h' = readCol s h' :=
      fun h' hh' => readCol_writeCol_ne hcol hmlen (fun he => hhne (he ▸ hh'))
    have hread' : ∀ h' ∈ rest, (readCol (writeCol s h (m.map Int.ofNat)) h').isSome :=
      fun h' hh' => by rw [hro h' hh']; exact hread h' (by simp [hh'])
    have hmap' : ∀ h' ∈ rest, ∀ col', readCol (writeCol s h (m.map Int.ofNat)) h' = some col' →
        ∀ v ∈ col', (mapper v).isSome :=
      fun h' hh' col' hcol' => hmap h' (by simp [hh']) col' (by rw [← hro h' hh']; exact hcol')
    obtain ⟨ih1, ih2, ih3, ih4, ih5, ihframe, ihmapped⟩ :=
      ih (writeCol s h (m.map Int.ofNat)) hnodup' hread' hmap'
    rw [hstep]
    refine ⟨ih1, ?_, ?_, ?_, ?_, ?_, ?_⟩
    · rw [ih2, writeCol_resources]
    · rw [ih3, writeCol_finalized]
    · rw [ih4, writeCol_modified]
    · rw [ih5, writeCol_fs]
    · intro h' hnotin
      rw [ihframe h' (fun hh => hnotin (by simp [hh]))]
      exact readCol_writeCol_ne hcol hmlen (fun he => hnotin (by simp [he]))
    · intro hx hhx col' m' hcol' hm'
      rcases List.mem_cons.mp hhx with hx1 | hx2
      · subst hx1
        rw [hcol] at hcol'
        injection hcol' with hcol'
        subst hcol'
        rw [hm] at hm'
        injection hm' with hm'
        subst hm'
        rw [ihframe hx hhne]
        exact readCol_writeCol_same hcol hmlen
      · exact ihmapped hx hx2 col' m' (by rw [hro hx hx2]; exact hcol') hm'

lemma npUnique_sorted (l : List Int) : List.Sorted (fun a b => a ≤ b) (npUnique l) :=
  List.sorted_insertionSort _ _

lemma npUnique_nodup (l : List Int) : (npUnique l).Nodup :=
  ((List.perm_insertionSort _ _).nodup_iff).mpr (List.nodup_dedup l)

lemma npUnique_mem (l : List Int) (v : Int) : v ∈ npUnique l ↔ v ∈ l := by
  unfold npUnique
  rw [(List.perm_insertionSort _ _).mem_iff, List.mem_dedup]

/-- Claim C5: when the metadata resource of a datapackage references a set
of (pairwise distinct, readable) indices-array columns, `reset_index`
succeeds and: the referenced-columns' distinct values are collected into the
ascending duplicate-free list `npUnique`, every referenced column is
rewritten in place by sending each value to its rank in that list (the dense
bijection onto `0..N-1` in ascending original-value order), and every
referenced indices-resource position is added to the dirty-set. -/
theorem reset_index_dense_renumbering
    (s : DPState) (metadataName : String) (mi : Nat) (handles : List ColHandle)
    (hcsv : getCsvData s metadataName = Except.ok (s, mi, handles))
    (hprep : prepareModifications s = none)
    (hnodup : handles.Nodup)
    (hread : ∀ h ∈ handles, (readCol s h).isSome) :
    (resetIndex s metadataName).1 = none ∧
    (resetIndex s metadataName).2.resources = s.resources ∧
    (∀ h ∈ handles, ∀ col, readCol s h = some col →
      readCol (resetIndex s metadataName).2 h =
        some (col.map (fun v =>
          Int.ofNat (rankIn (npUnique ((handles.filterMap (readCol s)).flatten)) v)))) ∧
    (∀ p ∈ handles.map Prod.fst, p ∈ (resetIndex s metadataName).2.modified) ∧
    List.Sorted (fun a b => a ≤ b) (npUnique ((handles.filterMap (readCol s)).flatten)) ∧
    (npUnique ((handles.filterMap (readCol s)).flatten)).Nodup ∧
    (∀ v, v ∈ npUnique ((handles.filterMap (readCol s)).flatten) ↔
      v ∈ (handles.filterMap (readCol s)).flatten) := by
  have hcolmem : ∀ h ∈ handles, ∀ col, readCol s h = some col → ∀ v ∈ col,
      v ∈ npUnique ((handles.filterMap (readCol s)).flatten) := by
    intro h hh col hcol v hv
    rw [npUnique_mem]
    exact List.mem_flatten.mpr ⟨col, List.mem_filterMap.mpr ⟨h, hh, hcol⟩, hv⟩
  have hmapOk : ∀ h ∈ handles, ∀ col, readCol s h = some col → ∀ v ∈ col,
      ((mapperOf (npUnique ((handles.filterMap (readCol s)).flatten))) v).isSome := by
    intro h hh col hcol v hv
    rw [mapperOf_eq_some_of_mem (hcolmem h hh col hcol v hv)]
    rfl
  obtain ⟨h1, h2, h3, h4, h5, hframe, hmapped⟩ :=
    @rewriteCols_ok (mapperOf (npUnique ((handles.filterMap (readCol s)).flatten)))
      handles s hnodup hread hmapOk
  have hres : resetIndex s metadataName =
      (none, ⟨(rewriteCols (mapperOf (npUnique ((handles.filterMap (readCol s)).flatten)))
          s handles).2.resources,
        (rewriteCols (mapperOf (npUnique ((handles.filterMap (readCol s)).flatten)))
          s handles).2.data,
        (rewriteCols (mapperOf (npUnique ((handles.filterMap (readCol s)).flatten)))
          s handles).2.finalized,
        updateModified (rewriteCols (mapperOf (npUnique ((handles.filterMap (readCol s)).flatten)))
          s handles).2.modified (handles.map Prod.fst),
        (rewriteCols (mapperOf (npUnique ((handles.filterMap (readCol s)).flatten)))
          s handles).2.fs⟩) := by
    simp only [resetIndex, hcsv, hprep]
    cases hrw : rewriteCols (mapperOf (npUnique ((handles.filterMap (readCol s)).flatten)))
        s handles with
    | mk e s' =>
      have he : e = none := by rw [hrw] at h1; exact h1
      subst he
      rfl
  rw [hres]
  refine ⟨rfl, h2, ?_, ?_, npUnique_sorted _, npUnique_nodup _, fun v => npUnique_mem _ v⟩
  · intro h hh col hcol
    have hmOpt := mapperOf_cols_of_mem (hcolmem h hh col hcol)
    have := hmapped h hh col (col.map
      (fun v => rankIn (npUnique ((handles.filterMap (readCol s)).flatten)) v)) hcol hmOpt
    have hrc : readCol ⟨(rewriteCols (mapperOf (npUnique ((handles.filterMap (readCol s)).flatten)))
        s handles).2.resources,
      (rewriteCols (mapperOf (npUnique ((handles.filterMap (readCol s)).flatten)))
        s handles).2.data,
      (rewriteCols (mapperOf (npUnique ((handles.filterMap (readCol s)).flatten)))
        s handles).2.finalized,
      updateModified (rewriteCols (mapperOf (npUnique ((handles.filterMap (readCol s)).flatten)))
        s handles).2.modified (handles.map Prod.fst),
      (rewriteCols (mapperOf (npUnique ((handles.filterMap (readCol s)).flatten)))
        s handles).2.fs⟩ h =
        readCol (rewriteCols (mapperOf (npUnique ((handles.filterMap (readCol s)).flatten)))
          s handles).2 h := by
      unfold readCol
      rfl
    rw [hrc, this]
    simp [List.map_map]
  · intro p hp
    simp only
    unfold updateModified
    rw [List.mem_dedup]
    exact List.mem_append.mpr (Or.inr hp)

/-- Witness for claim C5 at the spec's example: indices
`[(11,14),(11,15),(13,15)]` with `valid_for` naming the row column; the call
succeeds and the row column is renumbered to `[0, 0, 1]` (so the rows are
`[(0,14),(0,15),(1,15)]`). -/
theorem reset_index_dense_renumbering_witness :
    (resetIndex resetIndexEx "meta").1 = none ∧
    readCol (resetIndex resetIndexEx "meta").2 (0, true) =
      some ([11, 11, 13].map (fun v =>
        Int.ofNat (rankIn (npUnique (([(0, true)].filterMap
          (readCol resetIndexEx)).flatten)) v))) ∧
    readCol (resetIndex resetIndexEx "meta").2 (0, true) = some [0, 0, 1] := by
  have hth := reset_index_dense_renumbering resetIndexEx "meta" 1 [(0, true)]
    (by decide) rfl (by decide) (by decide)
  have hcol : readCol resetIndexEx (0, true) = some [11, 11, 13] := by decide
  refine ⟨hth.1, hth.2.2.1 (0, true) (by simp) [11, 11, 13] hcol, ?_⟩
  rw [hth.2.2.1 (0, true) (by simp) [11, 11, 13] hcol]
  decide

/-- Claim C4, amended: `reset_index` collects one column per `valid_for`
entry with no deduplication by underlying array.  With a column referenced
twice, the rewrite loop maps the column once and writes it back, then reads
the once-renumbered values and feeds them through the original-value mapping
again; when some once-renumbered value has no image there, the call raises
`KeyError`, leaving the column renumbered once and the dirty-set
untouched. -/
theorem reset_index_no_dedup_double_rewrite
    (s : DPState) (metadataName : String) (mi : Nat) (h : ColHandle)
    (col : List Int) (m : List Nat)
    (hcsv : getCsvData s metadataName = Except.ok (s, mi, [h, h]))
    (hprep : prepareModifications s = none)
    (hread : readCol s h = some col)
    (hm : mapOpt (mapperOf (npUnique (col ++ (col ++ [])))) col = some m)
    (hfail : mapOpt (mapperOf (npUnique (col ++ (col ++ []))))
      (m.map Int.ofNat) = none) :
    resetIndex s metadataName = (some Err.keyError, writeCol s h (m.map Int.ofNat)) ∧
    (resetIndex s metadataName).2.modified = s.modified := by
  have hmlen : (m.map Int.ofNat).length = col.length := by
    simp [mapOpt_some_length hm]
  have hr2 : readCol (writeCol s h (m.map Int.ofNat)) h = some (m.map Int.ofNat) :=
    readCol_writeCol_same hread hmlen
  have hrw : rewriteCols (mapperOf (npUnique (col ++ (col ++ [])))) s [h, h] =
      (some Err.keyError, writeCol s h (m.map Int.ofNat)) := by
    simp only [rewriteCols, hread, hm, hr2, hfail]
  have hmain : resetIndex s metadataName =
      (some Err.keyError, writeCol s h (m.map Int.ofNat)) := by
    simp only [resetIndex, hcsv, hprep, List.filterMap_cons, List.filterMap_nil,
      hread, List.flatten_cons, List.flatten_nil]
    rw [hrw]
    rfl
  refine ⟨hmain, ?_⟩
  rw [hmain]
  exact writeCol_modified s h (m.map Int.ofNat)

/-- Witness for claim C4 (amended) at the double-reference package: the call
raises `KeyError`, the state holds the once-renumbered column, and the
dirty-set stays empty. -/
theorem reset_index_no_dedup_double_rewrite_witness :
    resetIndex resetIndexDoubleEx "meta" =
      (some Err.keyError, writeCol resetIndexDoubleEx (0, true)
        (([0, 0, 1] : List Nat).map Int.ofNat)) ∧
    (resetIndex resetIndexDoubleEx "meta").2.modified =
      resetIndexDoubleEx.modified :=
  reset_index_no_dedup_double_rewrite resetIndexDoubleEx "meta" 1 (0, true)
    [11, 11, 13] [0, 0, 1] (by decide) rfl (by decide) (by decide) (by decide)

lemma lookup_assocSet_self {acc : List (List (Option Int) × Option Int)}
    {k : List (Option Int)} {v : Option Int} (h : (acc.lookup k).isSome) :
    (assocSet acc k v).lookup k = some v := by
  induction acc with
  | nil => simp at h
  | cons p t ih =>
    obtain ⟨k0, v0⟩ := p
    by_cases hk : k0 = k
    · subst hk
      simp [assocSet]
    · have hne : (k == k0) = false := by
        simp only [beq_eq_false_iff_ne, ne_eq]
        exact fun he => hk he.symm
      rw [List.lookup_cons] at h
      simp only [hne] at h
      simp only [assocSet, if_neg hk]
      rw [List.lookup_cons]
      simp only [hne]
      exact ih h

lemma lookup_assocSet_ne {acc : List (List (Option Int) × Option Int)}
    {k k' : List (Option Int)} {v : Option Int} (h : k' ≠ k) :
    (assocSet acc k v).lookup k' = acc.lookup k' := by
  induction acc with
  | nil => rfl
  | cons p t ih =>
    obtain ⟨k0, v0⟩ := p
    by_cases hk : k0 = k
    · subst hk
      have hne : (k' == k0) = false := by
        simp only [beq_eq_false_iff_ne, ne_eq]
        exact h
      simp only [assocSet]
      rw [if_true, List.lookup_cons, List.lookup_cons]
      simp only [hne]
      exact ih
    · simp only [assocSet, if_neg hk]
      rw [List.lookup_cons, List.lookup_cons]
      cases hk' : (k' == k0) with
      | true => simp
      | false =>
        simp only
        exact ih

lemma lookup_append_some {l₁ l₂ : List (List (Option Int) × Option Int)}
    {k : List (Option Int)} {v : Option Int} (h : l₁.lookup k = some v) :
    (l₁ ++ l₂).lookup k = some v := by
  induction l₁ with
  | nil => simp at h
  | cons p t ih =>
    obtain ⟨k0, v0⟩ := p
    rw [List.lookup_cons] at h
    rw [List.cons_append, List.lookup_cons]
    cases hk : (k == k0) with
    | true =>
      simp only [hk] at h
      simpa using h
    | false =>
      simp only [hk] at h
      simp only
      exact ih h

lemma lookup_append_none {l₁ l₂ : List (List (Option Int) × Option Int)}
    {k : List (Option Int)} (h : l₁.lookup k = none) :
    (l₁ ++ l₂).lookup k = l₂.lookup k := by
  induction l₁ with
  | nil => rfl
  | cons p t ih =>
    obtain ⟨k0, v0⟩ := p
    rw [List.lookup_cons] at h
    rw [List.cons_append, List.lookup_cons]
    cases hk : (k == k0) with
    | true =>
      simp only [hk] at h
      cases h
    | false =>
      simp only [hk] at h
      simp only
      exact ih h

lemma destMapperStep_mono_isSome {acc : List (List (Option Int) × Option Int)}
    {key k : List (Option Int)} {index : Int} (h : (acc.lookup k).isSome) :
    ((if (acc.lookup key).isSome then assocSet acc key none
      else acc ++ [(key, some index)]).lookup k).isSome := by
  by_cases hp : (acc.lookup key).isSome
  · rw [if_pos hp]
    by_cases hk : k = key
    · subst hk
      rw [lookup_assocSet_self h]
      rfl
    · rw [lookup_assocSet_ne hk]
      exact h
  · rw [if_neg hp]
    obtain ⟨v, hv⟩ := Option.isSome_iff_exists.mp h
    rw [lookup_append_some hv]
    rfl

lemma destMapperStep_mono_sentinel {acc : List (List (Option Int) × Option Int)}
    {key k : List (Option Int)} {index : Int} (h : acc.lookup k = some none) :
    (if (acc.lookup key).isSome then assocSet acc key none
      else acc ++ [(key, some index)]).lookup k = some none := by
  by_cases hp : (acc.lookup key).isSome
  · rw [if_pos hp]
    by_cases hk : k = key
    · subst hk
      exact lookup_assocSet_self (by simp [h])
    · rw [lookup_assocSet_ne hk]
      exact h
  · rw [if_neg hp]
    exact lookup_append_some h

lemma buildDestMapper_ok {fields : List String} {idDest : String} :
    ∀ (rows : List RecordT) (acc : List (List (Option Int) × Option Int)),
      (∀ r ∈ rows, (rowGet r idDest).isSome) →
      ∃ dm, buildDestMapper fields idDest acc rows = Except.ok dm := by
  intro rows
  induction rows with
  | nil => intro acc _; exact ⟨acc, rfl⟩
  | cons row rest ih =>
    intro acc hids
    obtain ⟨idx, hidx⟩ := Option.isSome_iff_exists.mp (hids row (by simp))
    simp only [buildDestMapper, hidx]
    exact ih _ (fun r hr => hids r (by simp [hr]))

lemma buildDestMapper_lookup_isSome {fields : List String} {idDest : String} :
    ∀ (rows : List RecordT) (acc dm : List (List (Option Int) × Option Int)),
      buildDestMapper fields idDest acc rows = Except.ok dm →
      ∀ k, ((acc.lookup k).isSome ∨
        1 ≤ rows.countP (fun r => decide (destKey fields r = k))) →
      (dm.lookup k).isSome := by
  intro rows
  induction rows with
  | nil =>
    intro acc dm hdm k hk
    simp only [buildDestMapper, Except.ok.injEq] at hdm
    subst hdm
    rcases hk with hk | hk
    · exact hk
    · simp at hk
  | cons row rest ih =>
    intro acc dm hdm k hk
    simp only [buildDestMapper] at hdm
    cases hid : rowGet row idDest with
    | none => rw [hid] at hdm; cases hdm
    | some idx =>
      rw [hid] at hdm
      rcases hk with hk | hk
      · exact ih _ dm hdm k (Or.inl (destMapperStep_mono_isSome hk))
      · by_cases hkey : destKey fields row = k
        · subst hkey
          refine ih _ dm hdm _ (Or.inl ?_)
          by_cases hp : (acc.lookup (destKey fields row)).isSome
          · rw [if_pos hp, lookup_assocSet_self hp]
            rfl
          · rw [if_neg hp,
              lookup_append_none (Option.not_isSome_iff_eq_none.mp hp)]
            simp
        · refine ih _ dm hdm k (Or.inr ?_)
          rw [List.countP_cons, if_neg (by simpa using hkey)] at hk
          omega

lemma buildDestMapper_lookup_sentinel {fields : List String} {idDest : String} :
    ∀ (rows : List RecordT) (acc dm : List (List (Option Int) × Option Int)),
      buildDestMapper fields idDest acc rows = Except.ok dm →
      ∀ k, (acc.lookup k = some none ∨
        2 ≤ rows.countP (fun r => decide (destKey fields r = k)) ∨
        ((acc.lookup k).isSome ∧
          1 ≤ rows.countP (fun r => decide (destKey fields r = k)))) →
      dm.lookup k = some none := by
  intro rows
  induction rows with
  | nil =>
    intro acc dm hdm k hk
    simp only [buildDestMapper, Except.ok.injEq] at hdm
    subst hdm
    rcases hk with hk | hk | ⟨_, hk⟩
    · exact hk
    · simp at hk
    · simp at hk
  | cons row rest ih =>
    intro acc dm hdm k hk
    simp only [buildDestMapper] at hdm
    cases hid : rowGet row idDest with
    | none => rw [hid] at hdm; cases hdm
    | some idx =>
      rw [hid] at hdm
      by_cases hkey : destKey fields row = k
      · subst hkey
        rcases hk with hk | hk | ⟨hk1, hk2⟩
        · exact ih _ dm hdm _ (Or.inl (destMapperStep_mono_sentinel hk))
        · -- two or more in row :: rest, and the head matches: rest has one more
          rw [List.countP_cons, if_pos (by simp)] at hk
          refine ih _ dm hdm _ (Or.inr (Or.inr ⟨?_, by omega⟩))
          by_cases hp : (acc.lookup (destKey fields row)).isSome
          · rw [if_pos hp, lookup_assocSet_self hp]
            rfl
          · rw [if_neg hp,
              lookup_append_none (Option.not_isSome_iff_eq_none.mp hp)]
            simp
        · -- already present and the head matches: the binding becomes the sentinel
          refine ih _ dm hdm _ (Or.inl ?_)
          rw [if_pos hk1]
          exact lookup_assocSet_self hk1
      · rcases hk with hk | hk | ⟨hk1, hk2⟩
        · exact ih _ dm hdm k (Or.inl (destMapperStep_mono_sentinel hk))
        · rw [List.countP_cons, if_neg (by simpa using hkey)] at hk
          exact ih _ dm hdm k (Or.inr (Or.inl (by omega)))
        · rw [List.countP_cons, if_neg (by simpa using hkey)] at hk2
          exact ih _ dm hdm k
            (Or.inr (Or.inr ⟨destMapperStep_mono_isSome hk1, by omega⟩))

lemma buildMapper_nonUnique {dm : List (List (Option Int) × Option Int)}
    {fields : List String} {idDp : String} :
    ∀ (rows : List RecordT) (acc : List (Int × Int)) (i : Nat) (hi : i < rows.length),
      (∀ j, (hj : j < i) → ∃ kj,
        dfKey fields (rows.get ⟨j, lt_trans hj hi⟩) = Except.ok kj ∧
        (rowGet (rows.get ⟨j, lt_trans hj hi⟩) idDp).isSome ∧
        (dm.lookup kj).isSome) →
      (∃ ki, dfKey fields (rows.get ⟨i, hi⟩) = Except.ok ki ∧
        (rowGet (rows.get ⟨i, hi⟩) idDp).isSome ∧
        dm.lookup ki = some none) →
      buildMapper dm fields idDp acc rows = Except.error Err.nonUnique := by
  intro rows
  induction rows with
  | nil =>
    intro acc i hi
    exact absurd hi (Nat.not_lt_zero i)
  | cons row rest ih =>
    intro acc i hi hbefore hdup
    cases i with
    | zero =>
      obtain ⟨ki, hk, hidp, hsent⟩ := hdup
      simp only [List.get] at hk hidp hsent
      obtain ⟨idx, hidx⟩ := Option.isSome_iff_exists.mp hidp
      simp only [buildMapper, hk, hidx, hsent]
    | succ j =>
      obtain ⟨k0, hk0, hid0, hsome0⟩ := hbefore 0 (Nat.succ_pos j)
      simp only [List.get] at hk0 hid0 hsome0
      obtain ⟨idx0, hidx0⟩ := Option.isSome_iff_exists.mp hid0
      obtain ⟨v0, hv0⟩ := Option.isSome_iff_exists.mp hsome0
      simp only [buildMapper, hk0, hidx0, hv0]
      cases v0 with
      | none => rfl
      | some d =>
        simp only
        exact ih _ j (Nat.lt_of_succ_lt_succ hi)
          (fun j' hj' => hbefore (j' + 1) (Nat.succ_lt_succ hj'))
          (by
            obtain ⟨ki, hk, hidp, hsent⟩ := hdup
            exact ⟨ki, hk, hidp, hsent⟩)

/-- Claim C3, amended: `reindex` raises `NonUnique` when, scanning the
metadata-table rows in order, it reaches a row whose composite key is shared
by two or more destination records, every earlier row's key matching at
least one destination record (duplicate destination keys that no metadata
row looks up are tolerated: the duplicate is only stored as a sentinel in
the destination mapper and the exception is raised lazily). -/
theorem reindex_nonunique_on_matched_duplicate
    (destination : List RecordT) (dfCols : List String) (dfRows : List RecordT)
    (fields : List String) (idDp idDest : String) (arrays : List (List Int))
    (hcol : idDp ∈ dfCols)
    (hids : ∀ r ∈ destination, (rowGet r idDest).isSome)
    (i : Nat) (hi : i < dfRows.length)
    (hbefore : ∀ j, (hj : j < i) → ∃ kj,
      dfKey fields (dfRows.get ⟨j, lt_trans hj hi⟩) = Except.ok kj ∧
      (rowGet (dfRows.get ⟨j, lt_trans hj hi⟩) idDp).isSome ∧
      1 ≤ keyCount destination fields kj)
    (hdup : ∃ ki, dfKey fields (dfRows.get ⟨i, hi⟩) = Except.ok ki ∧
      (rowGet (dfRows.get ⟨i, hi⟩) idDp).isSome ∧
      2 ≤ keyCount destination fields ki) :
    reindexCore destination dfCols dfRows (some fields) idDp idDest arrays =
      Except.error Err.nonUnique := by
  obtain ⟨dm, hdm⟩ := buildDestMapper_ok destination [] hids
  have hmain : buildMapper dm fields idDp [] dfRows = Except.error Err.nonUnique := by
    refine buildMapper_nonUnique dfRows [] i hi ?_ ?_
    · intro j hj
      obtain ⟨kj, h1, h2, h3⟩ := hbefore j hj
      exact ⟨kj, h1, h2, buildDestMapper_lookup_isSome destination [] dm hdm kj
        (Or.inr (by simpa [keyCount] using h3))⟩
    · obtain ⟨ki, h1, h2, h3⟩ := hdup
      exact ⟨ki, h1, h2, buildDestMapper_lookup_sentinel destination [] dm hdm ki
        (Or.inr (Or.inl (by simpa [keyCount] using h3)))⟩
  simp only [reindexCore]
  rw [if_neg (by simpa using hcol)]
  simp only [hdm, hmain]

/-- Witness for claim C3 (amended): with destination records whose ids 1 and
2 share the key `(a=1)` and a metadata row carrying that key, the call
raises `NonUnique`. -/
theorem reindex_nonunique_on_matched_duplicate_witness :
    reindexCore [[("a", 1), ("id", 1)], [("a", 1), ("id", 2)]] ["a", "id"]
      [[("a", 1), ("id", 9)]] (some ["a"]) "id" "id" [] =
      Except.error Err.nonUnique :=
  reindex_nonunique_on_matched_duplicate
    [[("a", 1), ("id", 1)], [("a", 1), ("id", 2)]] ["a", "id"]
    [[("a", 1), ("id", 9)]] ["a"] "id" "id" [] (by decide) (by decide)
    0 (by decide) (fun j hj => absurd hj (Nat.not_lt_zero j))
    ⟨[some 1], by decide, by decide, by decide⟩

lemma strLt_irrefl : ∀ l : List Char, strLt l l = false
  | [] => rfl
  | a :: as => by
    simp only [strLt, if_neg (lt_irrefl a.toNat)]
    exact strLt_irrefl as

lemma strLt_trans : ∀ {l₁ l₂ l₃ : List Char},
    strLt l₁ l₂ = true → strLt l₂ l₃ = true → strLt l₁ l₃ = true
  | [], [], _, h₁, _ => by cases h₁
  | [], _ :: _, [], _, h₂ => by cases h₂
  | [], _ :: _, _ :: _, _, _ => rfl
  | _ :: _, [], _, h₁, _ => by cases h₁
  | _ :: _, _ :: _, [], _, h₂ => by cases h₂
  | a :: as, b :: bs, c :: cs, h₁, h₂ => by
    simp only [strLt] at h₁ h₂ ⊢
    by_cases hab : a.toNat < b.toNat
    · by_cases hbc : b.toNat < c.toNat
      · rw [if_pos (by omega : a.toNat < c.toNat)]
      · rw [if_neg hbc] at h₂
        by_cases hcb : c.toNat < b.toNat
        · rw [if_pos hcb] at h₂; cases h₂
        · rw [if_neg hcb] at h₂
          rw [if_pos (by omega : a.toNat < c.toNat)]
    · rw [if_neg hab] at h₁
      by_cases hba : b.toNat < a.toNat
      · rw [if_pos hba] at h₁; cases h₁
      · rw [if_neg hba] at h₁
        by_cases hbc : b.toNat < c.toNat
        · rw [if_pos (by omega : a.toNat < c.toNat)]
        · rw [if_neg hbc] at h₂
          by_cases hcb : c.toNat < b.toNat
          · rw [if_pos hcb] at h₂; cases h₂
          · rw [if_neg hcb] at h₂
            rw [if_neg (by omega : ¬ a.toNat < c.toNat),
              if_neg (by omega : ¬ c.toNat < a.toNat)]
            exact strLt_trans h₁ h₂

lemma strLt_total : ∀ {l₁ l₂ : List Char},
    strLt l₁ l₂ = false → strLt l₂ l₁ = true ∨ l₁ = l₂
  | [], [], _ => Or.inr rfl
  | [], _ :: _, h => by cases h
  | _ :: _, [], _ => Or.inl rfl
  | a :: as, b :: bs, h => by
    simp only [strLt] at h ⊢
    by_cases hab : a.toNat < b.toNat
    · rw [if_pos hab] at h; cases h
    · rw [if_neg hab] at h
      by_cases hba : b.toNat < a.toNat
      · exact Or.inl (by rw [if_pos hba])
      · rw [if_neg hba] at h
        rw [if_neg (by omega : ¬ b.toNat < a.toNat),
          if_neg (by omega : ¬ a.toNat < b.toNat)]
        rcases strLt_total h with h | h
        · exact Or.inl h
        · refine Or.inr ?_
          have hn : a.toNat = b.toNat := by omega
          have hc : a = b := by
            rw [← Char.ofNat_toNat a, ← Char.ofNat_toNat b, hn]
          rw [hc, h]

lemma strLtB_trans {a b c : String} (hab : strLtB a b = true)
    (hbc : strLtB b c = true) : strLtB a c = true :=
  strLt_trans hab hbc

lemma keyLtB_eq_true_iff {data : List RecordT} {f g : String} :
    keyLtB data f g = true ↔
      distinctCount data f < distinctCount data g ∨
        (distinctCount data f = distinctCount data g ∧ strLtB f g = true) := by
  simp [keyLtB]

lemma keyLtB_irrefl (data : List RecordT) (a : String) :
    keyLtB data a a = false := by
  simp [keyLtB, strLtB, strLt_irrefl]

lemma keyLtB_trans {data : List RecordT} {a b c : String}
    (hab : keyLtB data a b = true) (hbc : keyLtB data b c = true) :
    keyLtB data a c = true := by
  rw [keyLtB_eq_true_iff] at hab hbc ⊢
  rcases hab with hab | ⟨hab1, hab2⟩
  · rcases hbc with hbc | ⟨hbc1, hbc2⟩
    · exact Or.inl (lt_trans hab hbc)
    · exact Or.inl (hbc1 ▸ hab)
  · rcases hbc with hbc | ⟨hbc1, hbc2⟩
    · exact Or.inl (hab1 ▸ hbc)
    · exact Or.inr ⟨hab1.trans hbc1, strLtB_trans hab2 hbc2⟩

lemma keyLtB_lt_of_lt_of_not_lt {data : List RecordT} {r g a : String}
    (hrg : keyLtB data r g = true) (hag : keyLtB data a g = false) :
    keyLtB data r a = true := by
  rw [keyLtB_eq_true_iff] at hrg ⊢
  have hag' : ¬ (distinctCount data a < distinctCount data g ∨
      (distinctCount data a = distinctCount data g ∧ strLtB a g = true)) := by
    rw [← keyLtB_eq_true_iff, hag]
    exact Bool.false_ne_true
  push_neg at hag'
  obtain ⟨hag1, hag2⟩ := hag'
  rcases hrg with hrg | ⟨hrg1, hrg2⟩
  · exact Or.inl (lt_of_lt_of_le hrg hag1)
  · rcases lt_or_eq_of_le hag1 with hga | hga
    · exact Or.inl (hrg1 ▸ hga)
    · have hfalse : strLt a.data g.data = false :=
        Bool.eq_false_iff.mpr (hag2 hga.symm)
      rcases strLt_total hfalse with hlt | hdata
      · exact Or.inr ⟨hrg1.trans hga, strLtB_trans hrg2 hlt⟩
      · have hga' : a = g := String.ext hdata
        subst hga'
        exact Or.inr ⟨hrg1.trans hga, hrg2⟩

lemma greedy_foldl_mem (data : List RecordT) :
    ∀ (rest : List String) (acc : String),
      rest.foldl (fun best g => if keyLtB data best g then g else best) acc ∈
        acc :: rest := by
  intro rest
  induction rest with
  | nil => intro acc; simp
  | cons g gs ih =>
    intro acc
    simp only [List.foldl_cons]
    have := ih (if keyLtB data acc g then g else acc)
    rcases List.mem_cons.mp this with h | h
    · rw [h]
      by_cases hb : keyLtB data acc g
      · simp [hb]
      · simp [hb]
    · simp [h]

lemma greedy_foldl_max (data : List RecordT) :
    ∀ (rest : List String) (acc : String),
      keyLtB data (rest.foldl (fun best g => if keyLtB data best g then g else best) acc)
        acc = false ∧
      ∀ g ∈ rest, keyLtB data
        (rest.foldl (fun best g => if keyLtB data best g then g else best) acc) g = false := by
  intro rest
  induction rest with
  | nil =>
    intro acc
    exact ⟨keyLtB_irrefl data acc, fun g hg => absurd hg (List.not_mem_nil g)⟩
  | cons g gs ih =>
    intro acc
    simp only [List.foldl_cons]
    by_cases hb : keyLtB data acc g
    · rw [if_pos hb]
      obtain ⟨ih1, ih2⟩ := ih g
      refine ⟨?_, fun x hx => ?_⟩
      · by_contra hc
        rw [Bool.not_eq_false] at hc
        have := keyLtB_trans hc hb
        rw [this] at ih1
        cases ih1
      · rcases List.mem_cons.mp hx with hx | hx
        · rw [hx]
          exact ih1
        · exact ih2 x hx
    · rw [if_neg hb]
      obtain ⟨ih1, ih2⟩ := ih acc
      refine ⟨ih1, fun x hx => ?_⟩
      rcases List.mem_cons.mp hx with hx | hx
      · subst hx
        by_contra hc
        rw [Bool.not_eq_false] at hc
        have := keyLtB_lt_of_lt_of_not_lt hc (Bool.eq_false_iff.mpr hb)
        rw [this] at ih1
        cases ih1
      · exact ih2 x hx

lemma nextField_mem (data : List RecordT) (f : String) (rest : List String) :
    nextField data (f :: rest) ∈ f :: rest :=
  greedy_foldl_mem data rest f

lemma nextField_max (data : List RecordT) (f : String) (rest : List String) :
    ∀ g ∈ f :: rest, keyLtB data (nextField data (f :: rest)) g = false := by
  intro g hg
  obtain ⟨h1, h2⟩ := greedy_foldl_max data rest f
  rcases List.mem_cons.mp hg with hg | hg
  · rw [hg]
    exact h1
  · exact h2 g hg

lemma greedyLoop_error {data : List RecordT} {raiseError : Bool} :
    ∀ (fuel : Nat) (fields chosen : List String) (e : Err),
      greedyLoop data raiseError fuel fields chosen = Except.error e →
      e = Err.nonUnique ∧ raiseError = true := by
  intro fuel
  induction fuel with
  | zero =>
    intro fields chosen e h
    match fields, h with
    | [], h =>
      simp only [greedyLoop] at h
      split at h
      · cases h
      · split at h
        · injection h with h
          rename_i hre
          exact ⟨h.symm, hre⟩
        · cases h
    | f :: rest, h =>
      simp only [greedyLoop] at h
      split at h
      · cases h
      · cases h
  | succ fuel ih =>
    intro fields chosen e h
    match fields, h with
    | [], h =>
      simp only [greedyLoop] at h
      split at h
      · cases h
      · split at h
        · injection h with h
          rename_i hre
          exact ⟨h.symm, hre⟩
        · cases h
    | f :: rest, h =>
      simp only [greedyLoop] at h
      split at h
      · cases h
      · exact ih _ _ e h

lemma greedyLoop_ok {data : List RecordT} {raiseError : Bool} :
    ∀ (fuel : Nat) (fields chosen chosen' : List String),
      fields.length ≤ fuel →
      greedyLoop data raiseError fuel fields chosen = Except.ok chosen' →
      coverage data chosen' = data.length ∨
        (raiseError = false ∧ ∀ f, (f ∈ fields ∨ f ∈ chosen) → f ∈ chosen') := by
  intro fuel
  induction fuel with
  | zero =>
    intro fields chosen chosen' hfuel h
    have hfields : fields = [] := List.eq_nil_of_length_eq_zero (Nat.le_zero.mp hfuel)
    subst hfields
    simp only [greedyLoop] at h
    split at h
    · injection h with h
      subst h
      rename_i hcov
      exact Or.inl hcov
    · split at h
      · cases h
      · injection h with h
        subst h
        rename_i hre
        exact Or.inr ⟨Bool.eq_false_iff.mpr hre, fun f hf => by
          rcases hf with hf | hf
          · cases hf
          · exact hf⟩
  | succ fuel ih =>
    intro fields chosen chosen' hfuel h
    match fields, hfuel, h with
    | [], hfuel, h =>
      simp only [greedyLoop] at h
      split at h
      · injection h with h
        subst h
        rename_i hcov
        exact Or.inl hcov
      · split at h
        · cases h
        · injection h with h
          subst h
          rename_i hre
          exact Or.inr ⟨Bool.eq_false_iff.mpr hre, fun f hf => by
            rcases hf with hf | hf
            · cases hf
            · exact hf⟩
    | f :: rest, hfuel, h =>
      simp only [greedyLoop] at h
      split at h
      · injection h with h
        subst h
        rename_i hcov
        exact Or.inl hcov
      · have hmem := nextField_mem data f rest
        have herase : ((f :: rest).erase (nextField data (f :: rest))).length ≤ fuel := by
          rw [List.length_erase_of_mem hmem]
          simpa using Nat.le_of_succ_le_succ hfuel
        rcases ih _ _ chosen' herase h with hcov | ⟨hre, hsub⟩
        · exact Or.inl hcov
        · refine Or.inr ⟨hre, fun x hx => ?_⟩
          rcases hx with hx | hx
          · by_cases hxn : x = nextField data (f :: rest)
            · exact hsub x (Or.inr (by simp [hxn]))
            · exact hsub x (Or.inl ((List.mem_erase_of_ne hxn).mpr hx))
          · exact hsub x (Or.inr (by simp [hx]))

/-- Claim C9: `greedy_set_cover` repeatedly selects the remaining field with
the greatest number of distinct values, breaking ties toward the
lexicographically later field name (the selected field is a member of the
remaining set and no remaining field compares strictly greater), until the
number of distinct chosen-field tuples equals the number of records; it
raises `NonUnique` exactly when the fields are exhausted first with
`raise_error` set, and with `raise_error` false it instead returns a chosen
set containing every collected field; for the records
`[{a:1,b:2,c:3},{a:2,b:2,c:3},{a:1,b:2,c:4}]` the chosen fields are `c` then
`a`, i.e. the set `{a, c}`. -/
theorem greedy_set_cover_spec :
    greedy_set_cover greedyEx [] true = Except.ok ["c", "a"] ∧
    (∀ (data : List RecordT) (f : String) (rest : List String),
      nextField data (f :: rest) ∈ f :: rest ∧
      ∀ g ∈ f :: rest, keyLtB data (nextField data (f :: rest)) g = false) ∧
    (∀ (data : List RecordT) (exclude : List String) (raiseError : Bool) (e : Err),
      greedy_set_cover data exclude raiseError = Except.error e →
      e = Err.nonUnique ∧ raiseError = true) ∧
    (∀ (data : List RecordT) (exclude chosen' : List String),
      greedy_set_cover data exclude true = Except.ok chosen' →
      coverage data chosen' = data.length) ∧
    (∀ (data : List RecordT) (exclude chosen' : List String),
      greedy_set_cover data exclude false = Except.ok chosen' →
      coverage data chosen' = data.length ∨
        ∀ f ∈ collectFields data exclude, f ∈ chosen') := by
  refine ⟨by decide, ?_, ?_, ?_, ?_⟩
  · intro data f rest
    exact ⟨nextField_mem data f rest, nextField_max data f rest⟩
  · intro data exclude raiseError e h
    exact greedyLoop_error _ _ _ e h
  · intro data exclude chosen' h
    rcases greedyLoop_ok _ _ _ chosen' (le_refl _) h with hcov | ⟨hre, _⟩
    · exact hcov
    · cases hre
  · intro data exclude chosen' h
    rcases greedyLoop_ok _ _ _ chosen' (le_refl _) h with hcov | ⟨_, hsub⟩
    · exact Or.inl hcov
    · exact Or.inr (fun f hf => hsub f (Or.inl hf))

/-- Witness for claim C9: the selection-rule conjuncts applied at the
example's fields, and the example outcome itself. -/
theorem greedy_set_cover_spec_witness :
    nextField greedyEx ["a", "b", "c"] ∈ ["a", "b", "c"] ∧
    greedy_set_cover greedyEx [] true = Except.ok ["c", "a"] :=
  ⟨(greedy_set_cover_spec.2.1 greedyEx "a" ["b", "c"]).1,
    greedy_set_cover_spec.1⟩

end BwProcessing
